import Mathlib

/-!  Verification of the SparkMiner mining core against its specification.

The development shallow-embeds the mining engine of src/src/mining
(miner.cpp, sha256_soft.cpp, sha256_ll.cpp, sha256_s3.cpp): machine words
and bytes are natural numbers reduced modulo `2^32` / `256` where the C code
overflows, C `double` arithmetic is modelled by exact rationals rounded to
IEEE-754 binary64 precision, byte buffers are lists, and the mutable module
state of miner.cpp is an explicit state record.  Hardware peripheral
behaviour that is not part of the repository (the SHA accelerator and vendor
HAL) is modelled from the specification's protocol description, with the
register word conventions pinned by the repository's own self-tests; those
definitions say so in their doc comments.  -/

set_option maxRecDepth 100000

namespace SparkMiner

/-! ## Word and byte primitives
Machine words are `ℕ` kept below `2^32`; bytes are `ℕ` kept below `256`.
C bitfield extractions through masks and shifts are written with `/`, `%`
and `*` by powers of two, which agree with the source's `&`, `>>`, `<<` on
the value ranges involved. -/

/-- Truncating 32-bit addition (C `uint32_t` addition). -/
def add32 (a b : ℕ) : ℕ := (a + b) % 2 ^ 32

/-- C macro `ROTR(x, n)`: `(x >> n) | (x << (32 - n))` on `uint32_t`. -/
def rotr32 (x n : ℕ) : ℕ := Nat.lor (x >>> n) ((x <<< (32 - n)) % 2 ^ 32)

/-- C `~x` on `uint32_t`, written as xor with the all-ones mask. -/
def not32 (x : ℕ) : ℕ := Nat.xor x 0xFFFFFFFF

/-- `__builtin_bswap32`: reverse the four bytes of a 32-bit word. -/
def bswap32 (x : ℕ) : ℕ :=
  (x % 256) * 2 ^ 24 + (x / 2 ^ 8 % 256) * 2 ^ 16 + (x / 2 ^ 16 % 256) * 2 ^ 8
    + (x / 2 ^ 24 % 256)

/-- Big-endian packing of four bytes into a word
(the `W[i]` packing loop of `sha256_transform`, sha256_soft.cpp:56-61). -/
def beWord (b0 b1 b2 b3 : ℕ) : ℕ := b0 * 2 ^ 24 + b1 * 2 ^ 16 + b2 * 2 ^ 8 + b3

/-- Little-endian packing of four bytes into a word (a `uint32_t` load from
little-endian memory, as in the `(uint32_t *)` casts of the source). -/
def leWord (b0 b1 b2 b3 : ℕ) : ℕ := b0 + b1 * 2 ^ 8 + b2 * 2 ^ 16 + b3 * 2 ^ 24

/-- Big-endian bytes of a word (the hash output loop of sha256_soft.cpp:106-111). -/
def beBytes (w : ℕ) : List ℕ :=
  [w / 2 ^ 24 % 256, w / 2 ^ 16 % 256, w / 2 ^ 8 % 256, w % 256]

/-- Little-endian bytes of a word (a `uint32_t` store to little-endian memory). -/
def leBytes (w : ℕ) : List ℕ :=
  [w % 256, w / 2 ^ 8 % 256, w / 2 ^ 16 % 256, w / 2 ^ 24 % 256]

/-- Pack a byte list into big-endian words, four bytes at a time. -/
def wordsBE : List ℕ → List ℕ
  | b0 :: b1 :: b2 :: b3 :: rest => beWord b0 b1 b2 b3 :: wordsBE rest
  | _ => []

/-- Pack a byte list into little-endian words, four bytes at a time. -/
def wordsLE : List ℕ → List ℕ
  | b0 :: b1 :: b2 :: b3 :: rest => leWord b0 b1 b2 b3 :: wordsLE rest
  | _ => []

/-- Serialize a word list to bytes, each word big-endian. -/
def bytesOfWordsBE (ws : List ℕ) : List ℕ := ws.flatMap beBytes

/-- Serialize a word list to bytes, each word little-endian
(consecutive `uint32_t` stores to little-endian memory). -/
def bytesOfWordsLE (ws : List ℕ) : List ℕ := ws.flatMap leBytes

/-! ## SHA-256 core, translated from sha256_soft.cpp -/

/-- SHA-256 initial hash values `H_INIT` (sha256_soft.cpp:12-15). -/
def H_INIT : List ℕ :=
  [0x6a09e667, 0xbb67ae85, 0x3c6ef372, 0xa54ff53a,
   0x510e527f, 0x9b05688c, 0x1f83d9ab, 0x5be0cd19]

/-- SHA-256 round constants `K` (sha256_soft.cpp:18-35). -/
def K : List ℕ :=
  [0x428A2F98, 0x71374491, 0xB5C0FBCF, 0xE9B5DBA5,
   0x3956C25B, 0x59F111F1, 0x923F82A4, 0xAB1C5ED5,
   0xD807AA98, 0x12835B01, 0x243185BE, 0x550C7DC3,
   0x72BE5D74, 0x80DEB1FE, 0x9BDC06A7, 0xC19BF174,
   0xE49B69C1, 0xEFBE4786, 0x0FC19DC6, 0x240CA1CC,
   0x2DE92C6F, 0x4A7484AA, 0x5CB0A9DC, 0x76F988DA,
   0x983E5152, 0xA831C66D, 0xB00327C8, 0xBF597FC7,
   0xC6E00BF3, 0xD5A79147, 0x06CA6351, 0x14292967,
   0x27B70A85, 0x2E1B2138, 0x4D2C6DFC, 0x53380D13,
   0x650A7354, 0x766A0ABB, 0x81C2C92E, 0x92722C85,
   0xA2BFE8A1, 0xA81A664B, 0xC24B8B70, 0xC76C51A3,
   0xD192E819, 0xD6990624, 0xF40E3585, 0x106AA070,
   0x19A4C116, 0x1E376C08, 0x2748774C, 0x34B0BCB5,
   0x391C0CB3, 0x4ED8AA4A, 0x5B9CCA4F, 0x682E6FF3,
   0x748F82EE, 0x78A5636F, 0x84C87814, 0x8CC70208,
   0x90BEFFFA, 0xA4506CEB, 0xBEF9A3F7, 0xC67178F2]

/-- C macro `CH(x, y, z)` (sha256_soft.cpp:41). -/
def shaCH (x y z : ℕ) : ℕ := Nat.xor (Nat.land x y) (Nat.land (not32 x) z)

/-- C macro `MAJ(x, y, z)` (sha256_soft.cpp:42). -/
def shaMAJ (x y z : ℕ) : ℕ :=
  Nat.xor (Nat.xor (Nat.land x y) (Nat.land x z)) (Nat.land y z)

/-- C macro `EP0(x)` (sha256_soft.cpp:43). -/
def shaEP0 (x : ℕ) : ℕ := Nat.xor (Nat.xor (rotr32 x 2) (rotr32 x 13)) (rotr32 x 22)

/-- C macro `EP1(x)` (sha256_soft.cpp:44). -/
def shaEP1 (x : ℕ) : ℕ := Nat.xor (Nat.xor (rotr32 x 6) (rotr32 x 11)) (rotr32 x 25)

/-- C macro `SIG0(x)` (sha256_soft.cpp:45). -/
def shaSIG0 (x : ℕ) : ℕ := Nat.xor (Nat.xor (rotr32 x 7) (rotr32 x 18)) (x >>> 3)

/-- C macro `SIG1(x)` (sha256_soft.cpp:46). -/
def shaSIG1 (x : ℕ) : ℕ := Nat.xor (Nat.xor (rotr32 x 17) (rotr32 x 19)) (x >>> 10)

/-- Message-schedule extension (sha256_soft.cpp:62-64): append
`W[i] = SIG1(W[i-2]) + W[i-7] + SIG0(W[i-15]) + W[i-16]` (mod `2^32`). -/
def scheduleStep (ws : List ℕ) : List ℕ :=
  let n := ws.length
  ws ++ [(shaSIG1 (ws.getD (n - 2) 0) + ws.getD (n - 7) 0 + shaSIG0 (ws.getD (n - 15) 0)
          + ws.getD (n - 16) 0) % 2 ^ 32]

/-- Full 64-word message schedule from 16 message words. -/
def schedule (w16 : List ℕ) : List ℕ := Nat.rec w16 (fun _ ws => scheduleStep ws) 48

/-- One SHA-256 round (sha256_soft.cpp:71-76) on the working variables
`(a, b, c, d, e, f, g, h)` with round constant `k` and schedule word `w`. -/
def roundStep (s : ℕ × ℕ × ℕ × ℕ × ℕ × ℕ × ℕ × ℕ) (k w : ℕ) :
    ℕ × ℕ × ℕ × ℕ × ℕ × ℕ × ℕ × ℕ :=
  match s with
  | (a, b, c, d, e, f, g, h) =>
    let t1 := (h + shaEP1 e + shaCH e f g + k + w) % 2 ^ 32
    let t2 := (shaEP0 a + shaMAJ a b c) % 2 ^ 32
    (add32 t1 t2, a, b, c, add32 d t1, e, f, g)

/-- SHA-256 compression on a state of 8 words and a block of 16 message words:
the message schedule, 64 rounds and final state addition of `sha256_transform`
(sha256_soft.cpp:49-81), with the byte-to-word packing factored out. -/
def sha256_compress (state w16 : List ℕ) : List ℕ :=
  let ws := schedule w16
  let init := (state.getD 0 0, state.getD 1 0, state.getD 2 0, state.getD 3 0,
               state.getD 4 0, state.getD 5 0, state.getD 6 0, state.getD 7 0)
  let fin := (List.range 64).foldl (fun s i => roundStep s (K.getD i 0) (ws.getD i 0)) init
  match fin with
  | (a, b, c, d, e, f, g, h) =>
    [add32 (state.getD 0 0) a, add32 (state.getD 1 0) b, add32 (state.getD 2 0) c,
     add32 (state.getD 3 0) d, add32 (state.getD 4 0) e, add32 (state.getD 5 0) f,
     add32 (state.getD 6 0) g, add32 (state.getD 7 0) h]

/-- `sha256_transform` (sha256_soft.cpp:49-81): process one 64-byte block,
packing the bytes into big-endian words as in lines 56-61. -/
def sha256_transform (state : List ℕ) (block : List ℕ) : List ℕ :=
  sha256_compress state (wordsBE block)

/-- State after the two blocks of `sha256_80` (sha256_soft.cpp:84-112). -/
def sha256_80_state (data : List ℕ) : List ℕ :=
  let st1 := sha256_transform H_INIT (data.take 64)
  let block2 := (data.drop 64).take 16 ++ [0x80] ++ List.replicate 45 0 ++ [0x02, 0x80]
  sha256_transform st1 block2

/-- `sha256_80` (sha256_soft.cpp:84-112): SHA-256 of exactly 80 bytes. -/
def sha256_80 (data : List ℕ) : List ℕ := bytesOfWordsBE (sha256_80_state data)

/-- State after the single block of `sha256_32` (sha256_soft.cpp:115-140). -/
def sha256_32_state (data : List ℕ) : List ℕ :=
  sha256_transform H_INIT (data.take 32 ++ [0x80] ++ List.replicate 29 0 ++ [0x01, 0x00])

/-- `sha256_32` (sha256_soft.cpp:115-140): SHA-256 of exactly 32 bytes. -/
def sha256_32 (data : List ℕ) : List ℕ := bytesOfWordsBE (sha256_32_state data)

/-- `sha256_soft_double` (sha256_soft.cpp:144-155): double SHA-256 of the
80-byte header.  The full 32-byte hash is always written to `hash_out`
(second component); the returned flag checks the first two output bytes
("16+ leading zero bits"). -/
def sha256_soft_double (data : List ℕ) : Bool × List ℕ :=
  let hash_out := sha256_32 (sha256_80 data)
  (hash_out.getD 0 1 == 0 && hash_out.getD 1 1 == 0, hash_out)

/-! ## General SHA-256 (vendor `mbedtls_sha256`)
miner.cpp hashes coinbases and merkle pairs through `sha256`
(sha256_hw.cpp:115-117), a thin wrapper over the vendor `mbedtls_sha256`.
The vendor function is not repository code; it is modelled by its standard
FIPS 180-4 contract: pad and compress 64-byte blocks. -/

/-- FIPS 180-4 padding: `0x80`, zeros to 56 mod 64, 64-bit big-endian bit
length. -/
def shaPad (msg : List ℕ) : List ℕ :=
  let bits := 8 * msg.length
  msg ++ [0x80] ++ List.replicate ((119 - msg.length % 64) % 64) 0 ++
    [bits / 2 ^ 56 % 256, bits / 2 ^ 48 % 256, bits / 2 ^ 40 % 256, bits / 2 ^ 32 % 256,
     bits / 2 ^ 24 % 256, bits / 2 ^ 16 % 256, bits / 2 ^ 8 % 256, bits % 256]

/-- Fold `sha256_transform` over 64-byte chunks (structural on a fuel that
the caller sizes to cover the whole list). -/
def shaBlocksGo : ℕ → List ℕ → List ℕ → List ℕ
  | 0, st, _ => st
  | fuel + 1, st, l =>
    if l.isEmpty then st else shaBlocksGo fuel (sha256_transform st (l.take 64)) (l.drop 64)

/-- Compression of a padded message from the initial vector. -/
def shaBlocks (st l : List ℕ) : List ℕ := shaBlocksGo (l.length / 64 + 1) st l

/-- `sha256` (sha256_hw.cpp:115-117): single SHA-256 of arbitrary-length
data, via the vendor `mbedtls_sha256`, modelled by its FIPS 180-4 contract. -/
def sha256 (data : List ℕ) : List ℕ := bytesOfWordsBE (shaBlocks H_INIT (shaPad data))

/-! ## Hardware SHA peripheral, ESP32-S2/S3/C3 family
This models the branch of `sha256_ll_double_hash` that miner.cpp's fallback
mining task calls (sha256_ll.cpp:383-399).  The peripheral itself (the
`SHA_START`/`SHA_CONTINUE`/`SHA_BUSY` registers, `SHA_H_BASE`,
`SHA_TEXT_BASE`, and the vendor HAL) is not in the repository; it is
modelled from the spec's protocol description (load/start block, poll busy,
read digest, continue for block 2) with the word conventions pinned by the
repository's own hardware self-test (sha256_s3.cpp:48-80): the engine
consumes the text registers as a byte stream in address order, so message
word `W[i]` is the byte-swap of the i-th text register value, and each
digest register holds the byte-swap of the corresponding SHA-256 state
word `H[i]`. -/

/-- Digest-register values after a START operation: a fresh SHA-256
compression from the initial vector over the text-register block. -/
def s3Start (text : List ℕ) : List ℕ :=
  (sha256_compress H_INIT (text.map bswap32)).map bswap32

/-- Digest-register values after a CONTINUE operation: a SHA-256 compression
continuing from the state held in the digest registers. -/
def s3Continue (hregs text : List ℕ) : List ℕ :=
  (sha256_compress (hregs.map bswap32) (text.map bswap32)).map bswap32

/-- Modelled from the spec: `sha256_ll_midstate` for the S3 family
(sha256_ll.cpp:310-315) delegates to the vendor HAL (`sha_hal_hash_block`,
`sha_hal_read_digest`), which is missing here.  Per the spec,
`computeMidstate` is the pure SHA-256 state of the first 64 header bytes;
the result is produced in digest-register convention (byte-swapped words). -/
def sha256_ll_midstate (first64 : List ℕ) : List ℕ :=
  (sha256_compress H_INIT (wordsBE first64)).map bswap32

/-- `ll_fill_second_block`, S3 family (sha256_ll.cpp:194-214): the text
registers for the second header block.  Words 0-2 are `uint32_t` loads of
the 12 tail bytes, word 3 is the nonce register value, then the padding
words exactly as the source writes them (`0x00000080`, ten zeros,
`0x80020000`). -/
def ll_fill_second_block (tail : List ℕ) (nonce : ℕ) : List ℕ :=
  wordsLE (tail.take 12) ++ [nonce, 0x00000080] ++ List.replicate 10 0 ++ [0x80020000]

/-- `ll_fill_inter_block` (sha256_ll.cpp:229-252): copy the eight digest
registers into the text registers and append the padding for the 32-byte
second hash (`0x00000080`, six zeros, `0x00010000`). -/
def ll_fill_inter_block (hregs : List ℕ) : List ℕ :=
  hregs.take 8 ++ [0x00000080] ++ List.replicate 6 0 ++ [0x00010000]

/-- `ll_read_digest_if`, S3 family (sha256_ll.cpp:254-276): early 16-bit
reject on the upper half of the last digest register (`(uint16_t)(last >>
16) != 0`); only on success are the eight digest registers stored to
`hash_out` (little-endian stores, covering words 0-7). -/
def ll_read_digest_if (hregs : List ℕ) : Bool × Option (List ℕ) :=
  let last := hregs.getD 7 0
  if last / 2 ^ 16 % 2 ^ 16 ≠ 0 then (false, none)
  else (true, some (bytesOfWordsLE (hregs.take 8)))

/-- `sha256_ll_double_hash`, S2/S3/C3 branch (sha256_ll.cpp:383-399):
restore the midstate into the digest registers (`ll_write_digest`), process
the second block in continue mode, copy the digest across with padding
(`ll_fill_inter_block`), run a fresh block, and read the digest behind the
early 16-bit reject.  (`sha_ll_load` is a no-op for this family: the digest
registers are directly memory mapped.) -/
def sha256_ll_double_hash (midstate tail : List ℕ) (nonce : ℕ) :
    Bool × Option (List ℕ) :=
  let h1 := s3Continue (midstate.take 8) (ll_fill_second_block tail nonce)
  let h2 := s3Start (ll_fill_inter_block h1)
  ll_read_digest_if h2

/-! ## Hardware digest read-out, plain ESP32 branch
`ll_read_digest_if` for the plain ESP32 (sha256_ll.cpp:145-189) reads the
`SHA_TEXT` registers after the final load.  The load operation is vendor
silicon; the repository documents its digest layout (miner.cpp:538-551 and
the comments of sha256_ll.cpp:145-169): reverse word order, each word
byte-swapped, so that register 7 carries `H[0]`. -/

/-- SHA_TEXT register contents after the ESP32 peripheral loads a digest
with state words `h`: reverse word order, each word byte-swapped.  Modelled
from the spec and the in-repo layout comments cited above. -/
def esp32DigestRegs (h : List ℕ) : List ℕ :=
  (List.range 8).map (fun i => bswap32 (h.getD (7 - i) 0))

/-- `ll_read_digest_if`, plain-ESP32 branch (sha256_ll.cpp:145-189).
`regs` are the eight SHA_TEXT register values; `debugLog` is the periodic
debug condition (`debug_ctr` hitting a multiple of 500000 — mutable
environment state passed as a parameter).  The early reject tests
`first & 0x0000FFFF`; unless rejected (or debug-logging), the registers are
byte-swapped and stored little-endian into `hash_out`. -/
def ll_read_digest_if_esp32 (regs : List ℕ) (debugLog : Bool) :
    Bool × Option (List ℕ) :=
  let first := regs.getD 7 0
  let valid := first % 2 ^ 16 == 0
  if !valid && !debugLog then (false, none)
  else (valid, some (bytesOfWordsLE ((regs.take 8).map bswap32)))

/-! ## Busy-register polling -/

/-- Countdown loop of `wait_idle` (sha256_s3.cpp:30-36): poll the busy
register (given as the stream of values successive reads would observe),
decrementing a timeout; `false` once the timeout is spent. -/
def wait_idle_go (busy : ℕ → Bool) : ℕ → ℕ → Bool
  | 0, _ => false
  | fuel + 1, t => if busy t then wait_idle_go busy fuel (t + 1) else true

/-- `wait_idle` (sha256_s3.cpp:30-36): at most 20000 busy polls, then give
up and report failure. -/
def wait_idle (busy : ℕ → Bool) : Bool := wait_idle_go busy 20000 0

/-- `sha256_ll_wait_idle` (sha256_ll.cpp:68-74) is `while (busy) {}` with no
timeout.  `llWaitIdleExits busy n` decides whether that loop has exited
within the first `n` polls of the busy register. -/
def llWaitIdleExits (busy : ℕ → Bool) (n : ℕ) : Bool :=
  (List.range n).any (fun k => !busy k)

/-- `sha256_s3_verify` (sha256_s3.cpp:243-315): one double hash on the S3
register protocol with a bounded busy-wait after each block; on either
timeout the function returns `false` before any digest register is read, so
no bytes are written to `hash_out`.  `busy1`, `busy2` are the busy-register
streams observed by the two waits. -/
def sha256_s3_verify (busy1 busy2 : ℕ → Bool) (midstate tail : List ℕ)
    (nonce : ℕ) : Bool × Option (List ℕ) :=
  let h1 := s3Continue (midstate.take 8) (ll_fill_second_block tail nonce)
  if !wait_idle busy1 then (false, none)
  else
    let h2 := s3Start (ll_fill_inter_block h1)
    if !wait_idle busy2 then (false, none)
    else (true, some (bytesOfWordsLE ((h2.take 8).map bswap32).reverse))

/-! ## IEEE-754 binary64 model
miner.cpp performs its target and difficulty arithmetic in C `double`.
Finite doubles are modelled by their exact rational values; each C
arithmetic operation rounds its exact rational result to 53 significant
bits, round-to-nearest / ties-to-even, with the subnormal exponent floor at
`2^(-1074)`.  Overflow to infinity is outside the ranges these computations
reach and is not modelled; NaN/infinity appear only at the API boundary
(`minerSetDifficulty`), where the source tests for them explicitly. -/

/-- Floor of the base-2 logarithm of a natural number (0 for inputs below 2),
by structural fuel recursion so that the kernel can evaluate it. -/
def natLog2Go : ℕ → ℕ → ℕ
  | 0, _ => 0
  | fuel + 1, n => if n ≤ 1 then 0 else natLog2Go fuel (n / 2) + 1

/-- Floor of the base-2 logarithm of a natural number. -/
def natLog2 (n : ℕ) : ℕ := natLog2Go n n

/-- Floor of the base-2 logarithm of a positive rational. -/
def qlog2 (q : ℚ) : ℤ :=
  if 1 ≤ q then (natLog2 ⌊q⌋.toNat : ℤ)
  else
    let a := q.num.toNat
    let b := q.den
    let k := natLog2 (b / a)
    if b ≤ a * 2 ^ k then -(k : ℤ) else -((k : ℤ) + 1)

/-- Round a rational to the nearest integer, ties to even. -/
def rne (q : ℚ) : ℤ :=
  let n := ⌊q⌋
  if q - n < 1 / 2 then n
  else if 1 / 2 < q - n then n + 1
  else if 2 ∣ n then n else n + 1

/-- The rational `2 ^ e` for an integer `e`, by kernel-computable natural
powers. -/
def q2pow : ℤ → ℚ
  | .ofNat n => ((2 ^ n : ℕ) : ℚ)
  | .negSucc n => 1 / ((2 ^ (n + 1) : ℕ) : ℚ)

/-- Round a nonnegative rational to IEEE-754 binary64 precision:
53 significant bits (subnormals below `2^(-1022)`), nearest, ties to even. -/
def roundPos (q : ℚ) : ℚ :=
  let e : ℤ := max (qlog2 q - 52) (-1074)
  (rne (q / q2pow e) : ℚ) * q2pow e

/-- Round a rational to the value of the nearest IEEE-754 binary64 double. -/
def roundB64 (q : ℚ) : ℚ :=
  if q > 0 then roundPos q else if q < 0 then -roundPos (-q) else 0

/-- C `double` addition: exact sum, rounded. -/
def fadd (a b : ℚ) : ℚ := roundB64 (a + b)

/-- C `double` subtraction: exact difference, rounded. -/
def fsub (a b : ℚ) : ℚ := roundB64 (a - b)

/-- C `double` multiplication: exact product, rounded. -/
def fmul (a b : ℚ) : ℚ := roundB64 (a * b)

/-- C `double` division: exact quotient, rounded. -/
def fdiv (a b : ℚ) : ℚ := roundB64 (a / b)

/-- C cast `(double)u` of a `uint64_t` (or any integer): rounded. -/
def f64ofNat (n : ℕ) : ℚ := roundB64 n

/-- C cast `(uint64_t)d` of a nonnegative `double`: truncate toward zero. -/
def f64toU64 (q : ℚ) : ℕ := ⌊q⌋.toNat

/-- A C `double` value at the API boundary: NaN, an infinity, or a finite
value. -/
inductive F64 where
  | nan : F64
  | inf : F64
  | ninf : F64
  | fin : ℚ → F64
deriving DecidableEq

/-! ## miner.cpp utility functions -/

/-- `decodeHexChar` (miner.cpp:81-86): nibble value of a hex digit; any
other character decodes to 0. -/
def decodeHexChar (c : Char) : ℕ :=
  if '0' ≤ c ∧ c ≤ '9' then c.toNat - '0'.toNat
  else if 'a' ≤ c ∧ c ≤ 'f' then c.toNat - 'a'.toNat + 10
  else if 'A' ≤ c ∧ c ≤ 'F' then c.toNat - 'A'.toNat + 10
  else 0

/-- `hexToBytes` (miner.cpp:88-92): decode hex pairs into bytes
(`decodeHexChar(in[i]) << 4 | decodeHexChar(in[i+1])`, written
arithmetically).  On an odd-length NUL-terminated string the final
iteration reads the terminator, which decodes to 0. -/
def hexToBytes : List Char → List ℕ
  | c1 :: c2 :: rest => (decodeHexChar c1 * 16 + decodeHexChar c2) :: hexToBytes rest
  | [c1] => [decodeHexChar c1 * 16]
  | [] => []

/-- The uppercase hex digit table of `encodeExtraNonce` (miner.cpp:95). -/
def hexDigitsU : List Char :=
  ['0', '1', '2', '3', '4', '5', '6', '7', '8', '9', 'A', 'B', 'C', 'D', 'E', 'F']

/-- `encodeExtraNonce` (miner.cpp:94-103): fixed-width big-endian hex of the
low `len` bytes of `en`, high nibble first. -/
def encodeExtraNonce (len en : ℕ) : List Char :=
  ((List.range len).map (fun k => en / 2 ^ (8 * k) % 256)).reverse.flatMap
    (fun b => [hexDigitsU.getD (b / 16) '0', hexDigitsU.getD (b % 16) '0'])

/-- `swapBytesInWords` (miner.cpp:105-114): reverse each 4-byte group. -/
def swapBytesInWords : List ℕ → List ℕ
  | b0 :: b1 :: b2 :: b3 :: rest => b3 :: b2 :: b1 :: b0 :: swapBytesInWords rest
  | l => l

/-- `strtoul(field, NULL, 16)` on a hex job field: parse leading hex digits,
truncated to `uint32_t` on assignment. -/
def strtoulHex (str : List Char) : ℕ :=
  ((str.takeWhile (fun c => decide (('0' ≤ c ∧ c ≤ '9') ∨ ('a' ≤ c ∧ c ≤ 'f')
      ∨ ('A' ≤ c ∧ c ≤ 'F')))).foldl (fun a c => a * 16 + decodeHexChar c) 0) % 2 ^ 32

/-! ## Target functions (miner.cpp:116-199) -/

/-- Overwrite `len bs` bytes of `l` starting at index `i` (a `memcpy` /
unaligned `uint32_t` store into a byte array). -/
def listSetSlice (l : List ℕ) (i : ℕ) (bs : List ℕ) : List ℕ :=
  l.take i ++ bs ++ l.drop (i + bs.length)

/-- `bits_to_target` (miner.cpp:120-135): expand the compact `nBits`
encoding into a 32-byte target, least-significant byte first (index 31 is
the most significant byte).  The mantissa is the low 23 bits plus bit 23
when set, stored little-endian at offset `exponent - 3` (or right-shifted
into offset 0 for exponents up to 3). -/
def bits_to_target (nBits : ℕ) : List ℕ :=
  let exponent := nBits / 2 ^ 24
  let mantissa0 := nBits % 2 ^ 23
  let mantissa := if nBits / 2 ^ 23 % 2 = 1 then mantissa0 + 2 ^ 23 else mantissa0
  let target := List.replicate 32 0
  if exponent ≤ 3 then listSetSlice target 0 (leBytes (mantissa / 2 ^ (8 * (3 - exponent))))
  else listSetSlice target (exponent - 3) (leBytes mantissa)

/-- Descending byte comparison loop of `check_target`. -/
def check_target_go : List (ℕ × ℕ) → Bool
  | [] => true
  | (h, t) :: rest => if h < t then true else if t < h then false else check_target_go rest

/-- `check_target` (miner.cpp:193-199): compare hash and target from the
most significant byte (index 31) down; equality passes. -/
def check_target (hash target : List ℕ) : Bool :=
  check_target_go ((hash.take 32).reverse.zip (target.take 32).reverse)

/-- The C `double` value of the literal `18446744073709551615.0`
(miner.cpp:149), which rounds to `2^64`. -/
def f64MaxU64 : ℚ := roundB64 18446744073709551615

/-- One iteration of the limb loop of `divide_256bit_by_double`
(miner.cpp:142-156): add the carried remainder scaled by `2^64`, divide,
clamp to `0xFFFFFFFFFFFFFFFF`, and compute the next remainder. -/
def divStep (divisor : ℚ) (t : ℕ) (rem : ℚ) : ℕ × ℚ :=
  let val := fadd (f64ofNat t) (fmul rem 18446744073709551616)
  let res := fdiv val divisor
  let result := if f64MaxU64 ≤ res then 18446744073709551615 else f64toU64 res
  (result, fsub val (fmul (f64ofNat result) divisor))

/-- `divide_256bit_by_double` (miner.cpp:137-159): divide a 256-bit value
(four little-endian 64-bit limbs, most significant limb last) by a `double`,
limb by limb from the most significant limb down, carrying a floating
remainder. -/
def divide_256bit_by_double (parts : List ℕ) (divisor : ℚ) : List ℕ :=
  let s3 := divStep divisor (parts.getD 3 0) 0
  let s2 := divStep divisor (parts.getD 2 0) s3.2
  let s1 := divStep divisor (parts.getD 1 0) s2.2
  let s0 := divStep divisor (parts.getD 0 0) s1.2
  [s0.1, s1.1, s2.1, s3.1]

/-- The 64-bit limb load of `adjust_target_for_difficulty`
(miner.cpp:163-172): little-endian bytes `i*8 .. i*8+7`. -/
def leU64 (l : List ℕ) (i : ℕ) : ℕ :=
  l.getD (i * 8) 0 + l.getD (i * 8 + 1) 0 * 2 ^ 8 + l.getD (i * 8 + 2) 0 * 2 ^ 16
    + l.getD (i * 8 + 3) 0 * 2 ^ 24 + l.getD (i * 8 + 4) 0 * 2 ^ 32
    + l.getD (i * 8 + 5) 0 * 2 ^ 40 + l.getD (i * 8 + 6) 0 * 2 ^ 48
    + l.getD (i * 8 + 7) 0 * 2 ^ 56

/-- The 64-bit limb store of `adjust_target_for_difficulty`
(miner.cpp:174-183): little-endian bytes of one limb. -/
def leBytes8 (w : ℕ) : List ℕ :=
  [w % 256, w / 2 ^ 8 % 256, w / 2 ^ 16 % 256, w / 2 ^ 24 % 256,
   w / 2 ^ 32 % 256, w / 2 ^ 40 % 256, w / 2 ^ 48 % 256, w / 2 ^ 56 % 256]

/-- `adjust_target_for_difficulty` (miner.cpp:161-184): load the 32-byte
target into four limbs, divide by the difficulty, store back. -/
def adjust_target_for_difficulty (bt : List ℕ) (difficulty : ℚ) : List ℕ :=
  (divide_256bit_by_double [leU64 bt 0, leU64 bt 1, leU64 bt 2, leU64 bt 3]
    difficulty).flatMap leBytes8

/-- `MAX_DIFFICULTY` (miner.cpp:35). -/
def MAX_DIFFICULTY : ℕ := 0x1d00ffff

/-- `setPoolTarget` (miner.cpp:186-190): the pool target is the
`MAX_DIFFICULTY` target scaled by the pool difficulty. -/
def setPoolTarget (poolDifficulty : ℚ) : List ℕ :=
  adjust_target_for_difficulty (bits_to_target MAX_DIFFICULTY) poolDifficulty

/-! ## Difficulty statistics (miner.cpp:261-283) -/

/-- The `maxTarget` double literal of `getDifficulty` (miner.cpp:264); the
decimal is exactly `0xFFFF * 2^208` and is binary64-representable. -/
def maxTargetD : ℚ :=
  roundB64 26959535291011309493156476344723991336010898738574164086137773096960

/-- `getDifficulty` (miner.cpp:263-274): fold the 32 hash bytes from index
31 down into a `double`, then divide `maxTarget` by it; NaN/infinite results
(hash value zero) collapse to 0. -/
def getDifficulty (hash : List ℕ) : ℚ :=
  let hashValue := (hash.take 32).reverse.foldl (fun hv b => fadd (fmul hv 256) (b : ℚ)) 0
  if hashValue = 0 then 0 else fdiv maxTargetD hashValue

/-- `compareBestDifficulty` (miner.cpp:276-283): keep the maximum observed
difficulty.  The NaN/infinity guards of the source are vacuous here: the
modelled difficulty is always finite and the stored best starts at 0. -/
def compareBestDifficulty (best : ℚ) (hash : List ℕ) : ℚ :=
  let difficulty := getDifficulty hash
  if best ≤ difficulty then difficulty else best

/-! ## Share classification (miner.cpp:285-327) and mining state -/

/-- `SUBMIT_FLAG_32BIT` (stratum_types.h:22). -/
def SUBMIT_FLAG_32BIT : ℕ := 0x02

/-- `SUBMIT_FLAG_BLOCK` (stratum_types.h:23). -/
def SUBMIT_FLAG_BLOCK : ℕ := 0x04

/-- The statistics counters of `mining_stats_t` that the mining core writes
(stratum_types.h:75-89), restricted to the fields miner.cpp touches. -/
structure MiningStats where
  hashes : ℕ
  shares : ℕ
  blocks : ℕ
  matches32 : ℕ
  templates : ℕ
  bestDifficulty : ℚ

/-- A `submit_entry_t` as filled in by `hashCheck` (miner.cpp:312-319). -/
structure Submission where
  jobId : List Char
  extraNonce2 : List Char
  timestamp : ℕ
  nonce : ℕ
  flags : ℕ
  difficulty : ℚ

/-- `hashCheck` (miner.cpp:289-327): judge a hash.  Only if it passes the
pool target is a submission built; within that branch the 32-bit flag tests
hash word 7 (bytes 28-31) and the block flag tests the block target.  The
best-difficulty statistic updates unconditionally at the end. -/
def hashCheck (jobId : List Char) (hash : List ℕ) (timestamp nonce : ℕ)
    (poolTarget blockTarget : List ℕ) (extraNonce2Size extraNonce2 : ℕ)
    (stats : MiningStats) : MiningStats × Option Submission :=
  if check_target hash poolTarget then
    let hash7 := leWord (hash.getD 28 0) (hash.getD 29 0) (hash.getD 30 0) (hash.getD 31 0)
    let flags1 := if hash7 = 0 then SUBMIT_FLAG_32BIT else 0
    let stats1 := if hash7 = 0 then { stats with matches32 := stats.matches32 + 1 } else stats
    let blockHit := check_target hash blockTarget
    let flags2 := if blockHit then flags1 + SUBMIT_FLAG_BLOCK else flags1
    let stats2 := if blockHit then { stats1 with blocks := stats1.blocks + 1 } else stats1
    let submission : Submission :=
      { jobId := jobId, extraNonce2 := encodeExtraNonce extraNonce2Size extraNonce2,
        timestamp := timestamp, nonce := nonce, flags := flags2,
        difficulty := getDifficulty hash }
    let stats3 := { stats2 with shares := stats2.shares + 1 }
    ({ stats3 with bestDifficulty := compareBestDifficulty stats3.bestDifficulty hash },
     some submission)
  else
    ({ stats with bestDifficulty := compareBestDifficulty stats.bestDifficulty hash }, none)

/-- A `stratum_job_t` (stratum_types.h:41-53), the fields miner.cpp reads. -/
structure StratumJob where
  jobId : List Char
  prevHash : List Char
  coinBase1 : List Char
  coinBase2 : List Char
  extraNonce1 : List Char
  merkleBranches : List (List Char)
  version : List Char
  nbits : List Char
  ntime : List Char

/-- The coinbase buffer assembled by `createCoinbaseHash` (miner.cpp:226-249):
`coinbase1 ++ extraNonce1 ++ extraNonce2 ++ coinbase2`, where extraNonce1 is
taken from the job and extraNonce2 is the stored counter serialized at the
stored width.  (The source accumulates with `cbLen`; for the even-length hex
fields of a well-formed job this is plain concatenation.) -/
def createCoinbaseBytes (job : StratumJob) (extraNonce2Size extraNonce2 : ℕ) : List ℕ :=
  hexToBytes job.coinBase1 ++ hexToBytes job.extraNonce1
    ++ hexToBytes (encodeExtraNonce extraNonce2Size extraNonce2)
    ++ hexToBytes job.coinBase2

/-- `createCoinbaseHash` (miner.cpp:226-257): double SHA-256 of the coinbase. -/
def createCoinbaseHash (job : StratumJob) (extraNonce2Size extraNonce2 : ℕ) : List ℕ :=
  sha256 (sha256 (createCoinbaseBytes job extraNonce2Size extraNonce2))

/-- `double_sha256_merkle` (miner.cpp:205-210). -/
def double_sha256_merkle (buf64 : List ℕ) : List ℕ := sha256 (sha256 buf64)

/-- `calculateMerkleRoot` (miner.cpp:212-224): fold the coinbase hash with
each decoded branch (64 hex characters), with no byte reversal of branches
or intermediate results. -/
def calculateMerkleRoot (coinbaseHash : List ℕ) (branches : List (List Char)) : List ℕ :=
  branches.foldl (fun pair br => double_sha256_merkle (pair.take 32 ++ hexToBytes (br.take 64)))
    coinbaseHash

/-- `block_header_t`: the 80-byte header fields (spec section 3; the struct
declaration itself lives in the missing sha256_types.h). -/
structure BlockHeader where
  version : ℕ
  prev_hash : List ℕ
  merkle_root : List ℕ
  timestamp : ℕ
  difficulty : ℕ
  nonce : ℕ

/-- The mutable module state of miner.cpp (its file-scope globals,
miner.cpp:42-75). -/
structure MinerState where
  pendingBlock : BlockHeader
  currentJobId : List Char
  extraNonce1 : List Char
  extraNonce2Size : ℕ
  extraNonce2 : ℕ
  blockTarget : List ℕ
  poolTarget : List ℕ
  poolDifficulty : ℚ
  startNonce0 : ℕ
  startNonce1 : ℕ
  stats : MiningStats

/-- The zero-initialized pending block (miner.cpp:53). -/
def zeroHeader : BlockHeader where
  version := 0
  prev_hash := List.replicate 32 0
  merkle_root := List.replicate 32 0
  timestamp := 0
  difficulty := 0
  nonce := 0

/-- The zero-initialized statistics record (miner.cpp:68). -/
def zeroStats : MiningStats where
  hashes := 0
  shares := 0
  blocks := 0
  matches32 := 0
  templates := 0
  bestDifficulty := 0

/-- The initial values of the remaining miner.cpp globals (miner.cpp:42-75). -/
def initialState : MinerState where
  pendingBlock := zeroHeader
  currentJobId := []
  extraNonce1 := []
  extraNonce2Size := 4
  extraNonce2 := 1
  blockTarget := List.replicate 32 0
  poolTarget := List.replicate 32 0
  poolDifficulty := 1
  startNonce0 := 0
  startNonce1 := 0x80000000
  stats := zeroStats

/-- `miner_start_job` (miner.cpp:348-403): build the header from the job,
recompute both targets, and seed the two start nonces from one random value.
The two `esp_random()` draws are passed as parameters. -/
def miner_start_job (s : MinerState) (job : StratumJob)
    (rndExtraNonce2 rndStartNonce : ℕ) : MinerState :=
  let extraNonce2 := rndExtraNonce2 % 2 ^ 32
  let coinbaseHash := createCoinbaseHash job s.extraNonce2Size extraNonce2
  let bits := strtoulHex job.nbits
  let hb : BlockHeader :=
    { version := strtoulHex job.version
      prev_hash := swapBytesInWords (hexToBytes (job.prevHash.take 64))
      merkle_root := calculateMerkleRoot coinbaseHash job.merkleBranches
      timestamp := strtoulHex job.ntime
      difficulty := bits
      nonce := 0 }
  let sn0 := rndStartNonce % 2 ^ 32
  { s with
    pendingBlock := hb
    currentJobId := job.jobId
    extraNonce2 := extraNonce2
    blockTarget := bits_to_target bits
    poolTarget := setPoolTarget s.poolDifficulty
    startNonce0 := sn0
    startNonce1 := (sn0 + 0x80000000) % 2 ^ 32
    stats := { s.stats with templates := s.stats.templates + 1 } }

/-- `miner_set_difficulty` (miner.cpp:417-423): accept only finite positive
difficulties; otherwise every part of the state is left unchanged. -/
def miner_set_difficulty (s : MinerState) (diff : F64) : MinerState :=
  match diff with
  | .fin q => if 0 < q then { s with poolDifficulty := q, poolTarget := setPoolTarget q } else s
  | _ => s

/-- `miner_set_extranonce` (miner.cpp:429-432): store the extraNonce1 string
(truncated by `strncpy` to 31 characters) and the extraNonce2 width, clamped
to at most 8. -/
def miner_set_extranonce (s : MinerState) (extraNonce1 : List Char)
    (extraNonce2Size : ℕ) : MinerState :=
  { s with
    extraNonce1 := extraNonce1.take 31
    extraNonce2Size := if extraNonce2Size > 8 then 8 else extraNonce2Size }

/-- Nonce tried at attempt `k` by a search loop seeded at `start`
(`hb.nonce++` on `uint32_t`, miner.cpp:499 and miner.cpp:867). -/
def nonceAt (start k : ℕ) : ℕ := (start + k) % 2 ^ 32

/-- The 80 bytes of the Bitcoin genesis block header, used as the fixed
verification vector the spec calls for (section 8). -/
def genesisHeader : List ℕ :=
  [0x01, 0x00, 0x00, 0x00] ++ List.replicate 32 0 ++
  [0x3b, 0xa3, 0xed, 0xfd, 0x7a, 0x7b, 0x12, 0xb2, 0x7a, 0xc7, 0x2c, 0x3e,
   0x67, 0x76, 0x8f, 0x61, 0x7f, 0xc8, 0x1b, 0xc3, 0x88, 0x8a, 0x51, 0x32,
   0x3a, 0x9f, 0xb8, 0xaa, 0x4b, 0x1e, 0x5e, 0x4a] ++
  [0x29, 0xab, 0x5f, 0x49] ++ [0xff, 0xff, 0x00, 0x1d] ++ [0x1d, 0xac, 0x2b, 0x7c]

/-- The first 76 header bytes of the genesis block (everything before the
nonce field). -/
def genesisHdr76 : List ℕ := genesisHeader.take 76

/-- The genesis block nonce. -/
def genesisNonce : ℕ := 0x7c2bac1d

/-- Hex-digit predicate matching the three accepting ranges of
`decodeHexChar` (miner.cpp:81-86). -/
def isHexDigit (c : Char) : Bool :=
  decide ((('0' : Char) ≤ c ∧ c ≤ '9') ∨ (('a' : Char) ≤ c ∧ c ≤ 'f')
    ∨ (('A' : Char) ≤ c ∧ c ≤ 'F'))

/-- Replace every character `decodeHexChar` does not accept by `'0'`. -/
def sanitizeHex (c : Char) : Char := if isHexDigit c then c else '0'

/-- A well-formed test job whose `nbits` field `"1c010000"` differs from
`MAX_DIFFICULTY`. -/
def testJob : StratumJob where
  jobId := ['j', '1']
  prevHash := List.replicate 64 '0'
  coinBase1 := ['0', '0']
  coinBase2 := ['0', '0']
  extraNonce1 := ['a', 'b']
  merkleBranches := []
  version := ['2', '0', '0', '0', '0', '0', '0', '0']
  nbits := ['1', 'c', '0', '1', '0', '0', '0', '0']
  ntime := ['6', '6', '0', '0', '0', '0', '0', '0']

/-- A test job whose `extraNonce1` field is the hex string `"cd"`. -/
def cexJob9 : StratumJob where
  jobId := ['k', '9']
  prevHash := List.replicate 64 '0'
  coinBase1 := ['0', '0']
  coinBase2 := ['f', 'f']
  extraNonce1 := ['c', 'd']
  merkleBranches := []
  version := ['2', '0', '0', '0', '0', '0', '0', '0']
  nbits := ['1', 'd', '0', '0', 'f', 'f', 'f', 'f']
  ntime := ['0', '0', '0', '0', '0', '0', '0', '1']

/-- A 32-byte hash whose 256-bit big-endian-from-index-31 value is 1. -/
def cexHash : List ℕ := 1 :: List.replicate 31 0

/-- The all-zero 32-byte target (nothing passes except the zero hash). -/
def cexPoolTarget : List ℕ := List.replicate 32 0

/-- The all-ones 32-byte target (every hash passes). -/
def cexBlockTarget : List ℕ := List.replicate 32 255

/-- A 32-byte target whose most significant 64-bit limb is `2 ^ 53 + 1`,
which is not representable in a binary64 `double`. -/
def cexTarget : List ℕ := List.replicate 24 0 ++ [1, 0, 0, 0, 0, 0, 0x20, 0]

/-! ## Byte and word lemmas -/

theorem exists_four_bytes {x : ℕ} (hx : x < 2 ^ 32) :
    ∃ b0 b1 b2 b3, b0 < 256 ∧ b1 < 256 ∧ b2 < 256 ∧ b3 < 256 ∧ x = leWord b0 b1 b2 b3 := by
  refine ⟨x % 256, x / 2 ^ 8 % 256, x / 2 ^ 16 % 256, x / 2 ^ 24 % 256, ?_, ?_, ?_, ?_, ?_⟩ <;>
    (try simp only [leWord]) <;> omega

theorem bswap32_leWord {b0 b1 b2 b3 : ℕ} (h0 : b0 < 256) (h1 : b1 < 256) (h2 : b2 < 256)
    (h3 : b3 < 256) : bswap32 (leWord b0 b1 b2 b3) = beWord b0 b1 b2 b3 := by
  simp only [bswap32, leWord, beWord]
  omega

theorem beWord_eq_leWord (b0 b1 b2 b3 : ℕ) : beWord b0 b1 b2 b3 = leWord b3 b2 b1 b0 := by
  simp only [beWord, leWord]
  ring

theorem bswap32_bswap32 {x : ℕ} (hx : x < 2 ^ 32) : bswap32 (bswap32 x) = x := by
  obtain ⟨b0, b1, b2, b3, h0, h1, h2, h3, rfl⟩ := exists_four_bytes hx
  rw [bswap32_leWord h0 h1 h2 h3, beWord_eq_leWord, bswap32_leWord h3 h2 h1 h0,
    beWord_eq_leWord]

theorem bswap32_lt {x : ℕ} (hx : x < 2 ^ 32) : bswap32 x < 2 ^ 32 := by
  obtain ⟨b0, b1, b2, b3, h0, h1, h2, h3, rfl⟩ := exists_four_bytes hx
  rw [bswap32_leWord h0 h1 h2 h3]
  simp only [beWord]
  omega

theorem leBytes_leWord {b0 b1 b2 b3 : ℕ} (h0 : b0 < 256) (h1 : b1 < 256) (h2 : b2 < 256)
    (h3 : b3 < 256) : leBytes (leWord b0 b1 b2 b3) = [b0, b1, b2, b3] := by
  simp only [leBytes, leWord, List.cons.injEq, and_true]
  omega

theorem beBytes_leWord {b0 b1 b2 b3 : ℕ} (h0 : b0 < 256) (h1 : b1 < 256) (h2 : b2 < 256)
    (h3 : b3 < 256) : beBytes (leWord b0 b1 b2 b3) = [b3, b2, b1, b0] := by
  simp only [beBytes, leWord, List.cons.injEq, and_true]
  omega

theorem leBytes_bswap32 {x : ℕ} (hx : x < 2 ^ 32) : leBytes (bswap32 x) = beBytes x := by
  obtain ⟨b0, b1, b2, b3, h0, h1, h2, h3, rfl⟩ := exists_four_bytes hx
  rw [bswap32_leWord h0 h1 h2 h3, beWord_eq_leWord, leBytes_leWord h3 h2 h1 h0,
    beBytes_leWord h0 h1 h2 h3]

theorem map_bswap32_map_bswap32 {ws : List ℕ} (h : ∀ w ∈ ws, w < 2 ^ 32) :
    (ws.map bswap32).map bswap32 = ws := by
  induction ws with
  | nil => rfl
  | cons w ws ih =>
    simp only [List.map_cons, List.cons.injEq]
    exact ⟨bswap32_bswap32 (h w (by simp)), ih fun v hv => h v (by simp [hv])⟩

theorem add32_lt (a b : ℕ) : add32 a b < 2 ^ 32 := Nat.mod_lt _ (by norm_num)

theorem sha256_compress_length (st w16 : List ℕ) : (sha256_compress st w16).length = 8 := by
  simp only [sha256_compress]
  rfl

theorem sha256_compress_lt (st w16 : List ℕ) : ∀ w ∈ sha256_compress st w16, w < 2 ^ 32 := by
  intro w hw
  simp only [sha256_compress] at hw
  generalize (List.range 64).foldl _ _ = p at hw
  obtain ⟨a, b, c, d, e, f, g, h⟩ := p
  simp only [List.mem_cons, List.not_mem_nil, or_false] at hw
  rcases hw with rfl | rfl | rfl | rfl | rfl | rfl | rfl | rfl <;> exact add32_lt _ _

theorem wordsBE_append {l1 : List ℕ} (l2 : List ℕ) (h : l1.length % 4 = 0) :
    wordsBE (l1 ++ l2) = wordsBE l1 ++ wordsBE l2 := by
  induction l1 using wordsBE.induct with
  | case1 b0 b1 b2 b3 rest ih =>
    simp only [List.length_cons] at h
    simp only [List.cons_append, wordsBE, List.cons.injEq, true_and]
    exact ih (by omega)
  | case2 l1 hne =>
    match l1, hne with
    | [], _ => rfl
    | [a], hne => simp at h
    | [a, b], hne => simp at h
    | [a, b, c], hne => simp at h
    | a :: b :: c :: d :: r, hne => exact absurd rfl (hne a b c d r)

theorem map_bswap32_wordsLE {l : List ℕ} (h : ∀ b ∈ l, b < 256) :
    (wordsLE l).map bswap32 = wordsBE l := by
  induction l using wordsLE.induct with
  | case1 b0 b1 b2 b3 rest ih =>
    simp only [wordsLE, wordsBE, List.map_cons, List.cons.injEq]
    constructor
    · exact bswap32_leWord (h b0 (by simp)) (h b1 (by simp)) (h b2 (by simp)) (h b3 (by simp))
    · exact ih fun b hb => h b (by simp [hb])
  | case2 l hne =>
    match l, hne with
    | [], _ => rfl
    | [a], hne => rfl
    | [a, b], hne => rfl
    | [a, b, c], hne => rfl
    | a :: b :: c :: d :: r, hne => exact absurd rfl (hne a b c d r)

theorem wordsBE_beBytes_append {w : ℕ} (hw : w < 2 ^ 32) (rest : List ℕ) :
    wordsBE (beBytes w ++ rest) = w :: wordsBE rest := by
  obtain ⟨b0, b1, b2, b3, h0, h1, h2, h3, rfl⟩ := exists_four_bytes hw
  rw [beBytes_leWord h0 h1 h2 h3]
  simp only [List.cons_append, wordsBE, List.cons.injEq, and_true]
  rw [← beWord_eq_leWord]
  exact ⟨rfl, by simp⟩

theorem wordsBE_bytesOfWordsBE {ws : List ℕ} (h : ∀ w ∈ ws, w < 2 ^ 32) :
    wordsBE (bytesOfWordsBE ws) = ws := by
  induction ws with
  | nil => rfl
  | cons w ws ih =>
    simp only [bytesOfWordsBE, List.flatMap_cons]
    rw [wordsBE_beBytes_append (h w (by simp))]
    simp only [List.cons.injEq, true_and]
    exact ih fun v hv => h v (by simp [hv])

theorem bytesOfWordsLE_map_bswap32 {ws : List ℕ} (h : ∀ w ∈ ws, w < 2 ^ 32) :
    bytesOfWordsLE (ws.map bswap32) = bytesOfWordsBE ws := by
  induction ws with
  | nil => rfl
  | cons w ws ih =>
    simp only [bytesOfWordsBE, bytesOfWordsLE, List.map_cons, List.flatMap_cons]
    rw [leBytes_bswap32 (h w (by simp))]
    simp only [List.append_cancel_left_eq]
    exact ih fun v hv => h v (by simp [hv])

theorem leBytes_eq_reverse_beBytes (w : ℕ) : leBytes w = (beBytes w).reverse := rfl

theorem bytesOfWordsLE_reverse (ws : List ℕ) :
    bytesOfWordsLE ws.reverse = (bytesOfWordsBE ws).reverse := by
  induction ws with
  | nil => rfl
  | cons w ws ih =>
    simp only [bytesOfWordsBE, bytesOfWordsLE, List.reverse_cons, List.flatMap_cons,
      List.flatMap_append, List.reverse_append, leBytes_eq_reverse_beBytes]
    simp only [bytesOfWordsLE, bytesOfWordsBE] at ih
    rw [ih]
    simp [List.flatMap_cons]

theorem exists_eight_words {ws : List ℕ} (h : ws.length = 8) :
    ∃ a b c d e f g i, ws = [a, b, c, d, e, f, g, i] := by
  rcases ws with _ | ⟨a, _ | ⟨b, _ | ⟨c, _ | ⟨d, _ | ⟨e, _ | ⟨f, _ | ⟨g, _ | ⟨i, rest⟩⟩⟩⟩⟩⟩⟩⟩ <;>
    simp only [List.length_cons, List.length_nil] at h
  · omega
  · omega
  · omega
  · omega
  · omega
  · omega
  · omega
  · omega
  · cases rest with
    | nil => exact ⟨a, b, c, d, e, f, g, i, rfl⟩
    | cons j t => simp only [List.length_cons] at h; omega

theorem bytesOfWordsBE_length (ws : List ℕ) : (bytesOfWordsBE ws).length = 4 * ws.length := by
  induction ws with
  | nil => rfl
  | cons w ws ih => simp [bytesOfWordsBE, beBytes, List.flatMap_cons] at ih ⊢; omega

theorem padwords45 : wordsBE ([0x80] ++ List.replicate 45 0 ++ [0x02, 0x80])
    = [0x80000000] ++ List.replicate 10 0 ++ [0x280] := by decide

theorem padwords29 : wordsBE ([0x80] ++ List.replicate 29 0 ++ [0x01, 0x00])
    = [0x80000000, 0, 0, 0, 0, 0, 0, 0x100] := by decide

theorem bswap32_shift16 {x : ℕ} (hx : x < 2 ^ 32) :
    bswap32 x / 2 ^ 16 % 2 ^ 16 = (x % 256) * 2 ^ 8 + x / 2 ^ 8 % 256 := by
  obtain ⟨b0, b1, b2, b3, h0, h1, h2, h3, rfl⟩ := exists_four_bytes hx
  have hl := leBytes_leWord h0 h1 h2 h3
  simp only [leBytes, List.cons.injEq, and_true] at hl
  rw [bswap32_leWord h0 h1 h2 h3, hl.1, hl.2.1]
  simp only [beWord]
  have hdiv : (b0 * 2 ^ 24 + b1 * 2 ^ 16 + b2 * 2 ^ 8 + b3) / 2 ^ 16 = b0 * 2 ^ 8 + b1 := by
    omega
  rw [hdiv]
  omega

theorem take64_append_nonce (hdr : List ℕ) (hlen : hdr.length = 76) (n : ℕ) :
    (hdr ++ leBytes n).take 64 = hdr.take 64 := by
  rw [List.take_append_eq_append_take]
  simp [hlen]

theorem drop64_append_nonce (hdr : List ℕ) (hlen : hdr.length = 76) (n : ℕ) :
    (hdr ++ leBytes n).drop 64 = hdr.drop 64 ++ leBytes n := by
  rw [List.drop_append_eq_append_drop]
  simp [hlen]

theorem ll_second_block_words (hdr : List ℕ) (hlen : hdr.length = 76)
    (hbytes : ∀ b ∈ hdr, b < 256) (n : ℕ) :
    (ll_fill_second_block (hdr.drop 64) n).map bswap32
      = wordsBE ((hdr.drop 64 ++ leBytes n) ++ ([0x80] ++ List.replicate 45 0 ++ [0x02, 0x80])) := by
  have htaillen : (hdr.drop 64).length = 12 := by simp [hlen]
  have htailb : ∀ b ∈ hdr.drop 64, b < 256 := fun b hb => hbytes b (List.mem_of_mem_drop hb)
  rw [List.append_assoc]
  rw [wordsBE_append _ (by simp [htaillen])]
  rw [wordsBE_append _ (by simp [leBytes])]
  simp only [ll_fill_second_block, List.map_append]
  rw [List.take_of_length_le (by omega)]
  rw [map_bswap32_wordsLE htailb]
  have h1 : wordsBE (leBytes n) = [bswap32 n] := rfl
  rw [h1, padwords45]
  have e2 : bswap32 0x00000080 = 0x80000000 := by decide
  have e3 : bswap32 0 = 0 := by decide
  have e4 : bswap32 0x80020000 = 0x280 := by decide
  simp only [List.append_cancel_left_eq, List.map_append, List.map_cons, List.map_nil,
    List.map_replicate, e2, e3, e4]
  simp

theorem leBytes8_sum {b0 b1 b2 b3 b4 b5 b6 b7 : ℕ} (h0 : b0 < 256) (h1 : b1 < 256)
    (h2 : b2 < 256) (h3 : b3 < 256) (h4 : b4 < 256) (h5 : b5 < 256) (h6 : b6 < 256)
    (h7 : b7 < 256) :
    leBytes8 (b0 + b1 * 2 ^ 8 + b2 * 2 ^ 16 + b3 * 2 ^ 24 + b4 * 2 ^ 32 + b5 * 2 ^ 40
      + b6 * 2 ^ 48 + b7 * 2 ^ 56) = [b0, b1, b2, b3, b4, b5, b6, b7] := by
  simp only [leBytes8, List.cons.injEq, and_true]
  omega

theorem divStep_one {t : ℕ} (ht : t < 2 ^ 64) (hfix : roundB64 (t : ℚ) = (t : ℚ)) :
    divStep 1 t 0 = (t, 0) := by
  have hz : roundB64 0 = 0 := by with_unfolding_all decide
  have hmax : f64MaxU64 = 18446744073709551616 := by with_unfolding_all rfl
  have hmul0 : fmul 0 18446744073709551616 = 0 := by with_unfolding_all decide
  have hadd0 : fadd (t : ℚ) 0 = (t : ℚ) := by rw [fadd, add_zero, hfix]
  have hres : fdiv (t : ℚ) 1 = (t : ℚ) := by rw [fdiv, div_one, hfix]
  have hcond : ¬ f64MaxU64 ≤ (t : ℚ) := by
    rw [hmax]
    exact not_le.mpr (by exact_mod_cast (show t < 18446744073709551616 from by omega))
  have hfloor : f64toU64 (t : ℚ) = t := by
    rw [f64toU64, Int.floor_natCast, Int.toNat_natCast]
  have hf : f64ofNat t = (t : ℚ) := by rw [f64ofNat, hfix]
  have hmul1 : fmul (t : ℚ) 1 = (t : ℚ) := by rw [fmul, mul_one, hfix]
  have hsub : fsub (t : ℚ) (t : ℚ) = 0 := by rw [fsub, sub_self, hz]
  simp only [divStep, hf, hmul0, hadd0, hres]
  rw [if_neg hcond]
  simp only [hfloor, hf, hmul1, hsub]

theorem exists_thirtytwo_bytes {l : List ℕ} (h : l.length = 32) :
    ∃ b0 b1 b2 b3 b4 b5 b6 b7 b8 b9 b10 b11 b12 b13 b14 b15 b16 b17 b18 b19 b20 b21 b22
      b23 b24 b25 b26 b27 b28 b29 b30 b31,
      l = [b0, b1, b2, b3, b4, b5, b6, b7, b8, b9, b10, b11, b12, b13, b14, b15, b16, b17,
        b18, b19, b20, b21, b22, b23, b24, b25, b26, b27, b28, b29, b30, b31] := by
  rcases l with _ | ⟨b0, _ | ⟨b1, _ | ⟨b2, _ | ⟨b3, _ | ⟨b4, _ | ⟨b5, _ | ⟨b6, _ | ⟨b7, _ | ⟨b8, _ | ⟨b9, _ | ⟨b10, _ | ⟨b11, _ | ⟨b12, _ | ⟨b13, _ | ⟨b14, _ | ⟨b15, _ | ⟨b16, _ | ⟨b17, _ | ⟨b18, _ | ⟨b19, _ | ⟨b20, _ | ⟨b21, _ | ⟨b22, _ | ⟨b23, _ | ⟨b24, _ | ⟨b25, _ | ⟨b26, _ | ⟨b27, _ | ⟨b28, _ | ⟨b29, _ | ⟨b30, _ | ⟨b31, rest⟩⟩⟩⟩⟩⟩⟩⟩⟩⟩⟩⟩⟩⟩⟩⟩⟩⟩⟩⟩⟩⟩⟩⟩⟩⟩⟩⟩⟩⟩⟩⟩ <;>
    simp only [List.length_cons, List.length_nil] at h
  · omega
  · omega
  · omega
  · omega
  · omega
  · omega
  · omega
  · omega
  · omega
  · omega
  · omega
  · omega
  · omega
  · omega
  · omega
  · omega
  · omega
  · omega
  · omega
  · omega
  · omega
  · omega
  · omega
  · omega
  · omega
  · omega
  · omega
  · omega
  · omega
  · omega
  · omega
  · omega
  · cases rest with
    | nil =>
        exact ⟨b0, b1, b2, b3, b4, b5, b6, b7, b8, b9, b10, b11, b12, b13, b14, b15, b16,
          b17, b18, b19, b20, b21, b22, b23, b24, b25, b26, b27, b28, b29, b30, b31, rfl⟩
    | cons j t => simp only [List.length_cons] at h; omega

theorem divide_one {L0 L1 L2 L3 : ℕ}
    (hl0 : L0 < 2 ^ 64) (hl1 : L1 < 2 ^ 64) (hl2 : L2 < 2 ^ 64) (hl3 : L3 < 2 ^ 64)
    (hf0 : roundB64 (L0 : ℚ) = (L0 : ℚ)) (hf1 : roundB64 (L1 : ℚ) = (L1 : ℚ))
    (hf2 : roundB64 (L2 : ℚ) = (L2 : ℚ)) (hf3 : roundB64 (L3 : ℚ) = (L3 : ℚ)) :
    divide_256bit_by_double [L0, L1, L2, L3] 1 = [L0, L1, L2, L3] := by
  simp only [divide_256bit_by_double, List.getD_cons_zero, List.getD_cons_succ]
  simp only [divStep_one hl3 hf3]
  simp only [divStep_one hl2 hf2]
  simp only [divStep_one hl1 hf1]
  simp only [divStep_one hl0 hf0]

/-! ## Claim theorems -/

/-- C1 (amended): for every 80-byte header and nonce, finishing the hash from
the midstate of the first 64 bytes over the 12-byte tail and the nonce on the
hardware register protocol (`sha256_ll_double_hash`) produces, whenever it
produces a digest, exactly the bytes of the direct double-SHA-256 of the full
80-byte header computed by the software backend (`sha256_soft_double`), at
the same positions; its passed flag, however, is true exactly when the LAST
two digest bytes are zero, while the software backend's flag tests the first
two digest bytes, so the (flag, digest) outputs are not bit-identical. -/
theorem c1_hw_matches_soft_digest (hdr : List ℕ) (hlen : hdr.length = 76)
    (hbytes : ∀ b ∈ hdr, b < 256) (n : ℕ) (hn : n < 2 ^ 32) :
    sha256_ll_double_hash (sha256_ll_midstate ((hdr ++ leBytes n).take 64)) (hdr.drop 64) n
      = ((((sha256_soft_double (hdr ++ leBytes n)).2.getD 30 0 == 0)
           && ((sha256_soft_double (hdr ++ leBytes n)).2.getD 31 0 == 0)),
         if (((sha256_soft_double (hdr ++ leBytes n)).2.getD 30 0 == 0)
             && ((sha256_soft_double (hdr ++ leBytes n)).2.getD 31 0 == 0)) = true
         then some (sha256_soft_double (hdr ++ leBytes n)).2
         else none) := by
  have htake : (hdr ++ leBytes n).take 64 = hdr.take 64 := take64_append_nonce hdr hlen n
  have hdrop : (hdr ++ leBytes n).drop 64 = hdr.drop 64 ++ leBytes n :=
    drop64_append_nonce hdr hlen n
  set st1 := sha256_compress H_INIT (wordsBE (hdr.take 64)) with hst1
  have hst1lt : ∀ w ∈ st1, w < 2 ^ 32 := sha256_compress_lt _ _
  have hst1len : st1.length = 8 := sha256_compress_length _ _
  have hmid : sha256_ll_midstate ((hdr ++ leBytes n).take 64) = st1.map bswap32 := by
    rw [htake]; rfl
  have hblk := ll_second_block_words hdr hlen hbytes n
  set H1 := sha256_compress st1 (wordsBE ((hdr.drop 64 ++ leBytes n)
    ++ ([0x80] ++ List.replicate 45 0 ++ [0x02, 0x80]))) with hH1
  have hH1lt : ∀ w ∈ H1, w < 2 ^ 32 := sha256_compress_lt _ _
  have hH1len : H1.length = 8 := sha256_compress_length _ _
  have ht16 : (List.drop 64 hdr ++ leBytes n).take 16 = List.drop 64 hdr ++ leBytes n :=
    List.take_of_length_le (by simp [hlen, leBytes])
  have hsoft80 : sha256_80_state (hdr ++ leBytes n) = H1 := by
    unfold sha256_80_state sha256_transform
    rw [htake, hdrop]
    have hassoc : (List.drop 64 hdr ++ leBytes n).take 16 ++ [0x80]
          ++ List.replicate 45 0 ++ [0x02, 0x80]
        = List.drop 64 hdr ++ leBytes n ++ ([0x80] ++ List.replicate 45 0 ++ [0x02, 0x80]) := by
      rw [ht16]
      simp [List.append_assoc]
    rw [hassoc, ← hst1, ← hH1]
  have hcont : s3Continue ((st1.map bswap32).take 8) (ll_fill_second_block (hdr.drop 64) n)
      = H1.map bswap32 := by
    rw [s3Continue, List.take_of_length_le (by simp [hst1len])]
    rw [map_bswap32_map_bswap32 hst1lt, hblk, hH1]
  have hH1take : (H1.map bswap32).take 8 = H1.map bswap32 :=
    List.take_of_length_le (by simp [hH1len])
  have hinter : (ll_fill_inter_block (H1.map bswap32)).map bswap32
      = H1 ++ [0x80000000, 0, 0, 0, 0, 0, 0, 0x100] := by
    rw [ll_fill_inter_block, hH1take]
    have e2 : bswap32 0x00000080 = 0x80000000 := by decide
    have e3 : bswap32 0 = 0 := by decide
    have e5 : bswap32 0x00010000 = 0x100 := by decide
    simp only [List.map_append, map_bswap32_map_bswap32 hH1lt, List.map_cons, List.map_nil,
      List.map_replicate, e2, e3, e5]
    simp
  have hw32 : wordsBE ((bytesOfWordsBE H1).take 32 ++ [0x80] ++ List.replicate 29 0
        ++ [0x01, 0x00]) = H1 ++ [0x80000000, 0, 0, 0, 0, 0, 0, 0x100] := by
    rw [List.take_of_length_le (by rw [bytesOfWordsBE_length, hH1len])]
    rw [show bytesOfWordsBE H1 ++ [0x80] ++ List.replicate 29 0 ++ [0x01, 0x00]
        = bytesOfWordsBE H1 ++ ([0x80] ++ List.replicate 29 0 ++ [0x01, 0x00]) by simp]
    rw [wordsBE_append _ (by rw [bytesOfWordsBE_length, hH1len]), padwords29,
      wordsBE_bytesOfWordsBE hH1lt]
  have hsoft32 : sha256_32_state (sha256_80 (hdr ++ leBytes n))
      = sha256_compress H_INIT (H1 ++ [0x80000000, 0, 0, 0, 0, 0, 0, 0x100]) := by
    rw [sha256_32_state, sha256_transform, sha256_80, hsoft80, hw32]
  set H2 := sha256_compress H_INIT (H1 ++ [0x80000000, 0, 0, 0, 0, 0, 0, 0x100]) with hH2
  have hH2lt : ∀ w ∈ H2, w < 2 ^ 32 := sha256_compress_lt _ _
  have hH2len : H2.length = 8 := sha256_compress_length _ _
  have hstart : s3Start (ll_fill_inter_block (H1.map bswap32)) = H2.map bswap32 := by
    rw [s3Start, hinter, hH2]
  have hdig : (sha256_soft_double (hdr ++ leBytes n)).2 = bytesOfWordsBE H2 := by
    rw [sha256_soft_double, sha256_32, hsoft32, hH2]
  rw [sha256_ll_double_hash, hmid, hcont, hstart, hdig]
  obtain ⟨a, b, c, d, e, f, g, i, hws⟩ := exists_eight_words hH2len
  have hi : i < 2 ^ 32 := hH2lt i (by rw [hws]; simp)
  rw [hws]
  rw [ll_read_digest_if]
  have hgd : (List.map bswap32 [a, b, c, d, e, f, g, i]).getD 7 0 = bswap32 i := rfl
  have htk : (List.map bswap32 [a, b, c, d, e, f, g, i]).take 8
      = List.map bswap32 [a, b, c, d, e, f, g, i] := rfl
  have hb30 : (bytesOfWordsBE [a, b, c, d, e, f, g, i]).getD 30 0 = i / 2 ^ 8 % 256 := rfl
  have hb31 : (bytesOfWordsBE [a, b, c, d, e, f, g, i]).getD 31 0 = i % 256 := rfl
  have hout : bytesOfWordsLE (List.map bswap32 [a, b, c, d, e, f, g, i])
      = bytesOfWordsBE [a, b, c, d, e, f, g, i] := by
    refine bytesOfWordsLE_map_bswap32 ?_
    intro w hw
    apply hH2lt
    rw [hws]
    exact hw
  rw [hgd, htk, hb30, hb31, hout]
  rw [bswap32_shift16 hi]
  have h28 : (2 : ℕ) ^ 8 = 256 := by norm_num
  simp only [h28]
  by_cases hz : i % 256 = 0 <;> by_cases hz2 : i / 256 % 256 = 0
  · have hc : (i % 256) * 256 + i / 256 % 256 = 0 := by omega
    simp [hc, hz, hz2]
  · have hc : (i % 256) * 256 + i / 256 % 256 ≠ 0 := by omega
    simp [hc, hz, hz2]
  · have hc : (i % 256) * 256 + i / 256 % 256 ≠ 0 := by omega
    simp [hc, hz, hz2]
  · have hc : (i % 256) * 256 + i / 256 % 256 ≠ 0 := by omega
    simp [hc, hz, hz2]

/-- C1 witness: the amended equivalence instantiated at the genesis block
header and its real nonce, with every hypothesis discharged by computation. -/
theorem c1_witness :
    genesisHdr76.length = 76 ∧ (∀ b ∈ genesisHdr76, b < 256) ∧ genesisNonce < 2 ^ 32
      ∧ sha256_ll_double_hash
          (sha256_ll_midstate ((genesisHdr76 ++ leBytes genesisNonce).take 64))
          (genesisHdr76.drop 64) genesisNonce
        = ((((sha256_soft_double (genesisHdr76 ++ leBytes genesisNonce)).2.getD 30 0 == 0)
             && ((sha256_soft_double (genesisHdr76 ++ leBytes genesisNonce)).2.getD 31 0 == 0)),
           if (((sha256_soft_double (genesisHdr76 ++ leBytes genesisNonce)).2.getD 30 0 == 0)
               && ((sha256_soft_double (genesisHdr76 ++ leBytes genesisNonce)).2.getD 31 0 == 0))
              = true
           then some (sha256_soft_double (genesisHdr76 ++ leBytes genesisNonce)).2
           else none) :=
  ⟨by decide, by decide, by decide,
   c1_hw_matches_soft_digest genesisHdr76 (by decide) (by decide) genesisNonce (by decide)⟩

/-- C1 counterexample: on the genesis block header the two backends do NOT
produce bit-identical outputs: the software backend's passed flag is false
(the digest does not begin with two zero bytes) while the hardware register
protocol accepts it (the digest ends with two zero bytes), refuting the
claim's bit-identical-outputs clause as stated. -/
theorem c1_counterexample :
    (sha256_soft_double genesisHeader).1 = false
  ∧ (sha256_ll_double_hash (sha256_ll_midstate (genesisHeader.take 64))
      ((genesisHeader.take 76).drop 64) genesisNonce).1 = true := by
  constructor
  · rfl
  · rfl

theorem bswap32_mod16 {x : ℕ} (hx : x < 2 ^ 32) :
    bswap32 x % 2 ^ 16 = (x / 2 ^ 16 % 256) * 2 ^ 8 + x / 2 ^ 24 % 256 := by
  obtain ⟨b0, b1, b2, b3, h0, h1, h2, h3, rfl⟩ := exists_four_bytes hx
  have hl := leBytes_leWord h0 h1 h2 h3
  simp only [leBytes, List.cons.injEq, and_true] at hl
  rw [bswap32_leWord h0 h1 h2 h3, hl.2.2.1, hl.2.2.2]
  simp only [beWord]
  omega

/-- C4 (amended): for every 80-byte header, the ESP32 digest read-out
(`ll_read_digest_if_esp32` over the documented register layout of hash 2's
state words) returns a passed flag exactly equal to the software backend's
flag — both test the 16 most-significant bits of the digest — and it
materializes the (byte-reversed) hash only when the flag passes or the
periodic debug read fires; the software backend `sha256_soft_double`, in
contrast, always materializes the full 32-byte hash, even on rejection. -/
theorem c4_esp32_read_matches_soft (hdr : List ℕ) (dbg : Bool) :
    ll_read_digest_if_esp32 (esp32DigestRegs (sha256_32_state (sha256_80 hdr))) dbg
      = ((sha256_soft_double hdr).1,
         if ((sha256_soft_double hdr).1 || dbg) = true
         then some ((sha256_soft_double hdr).2.reverse) else none)
  ∧ (sha256_soft_double hdr).2 = bytesOfWordsBE (sha256_32_state (sha256_80 hdr)) := by
  have hdig : (sha256_soft_double hdr).2 = bytesOfWordsBE (sha256_32_state (sha256_80 hdr)) :=
    rfl
  refine ⟨?_, hdig⟩
  have hflag : (sha256_soft_double hdr).1
      = (((sha256_soft_double hdr).2.getD 0 1 == 0)
          && ((sha256_soft_double hdr).2.getD 1 1 == 0)) := rfl
  set W := sha256_32_state (sha256_80 hdr) with hW
  have hWlt : ∀ w ∈ W, w < 2 ^ 32 := by
    rw [hW, sha256_32_state, sha256_transform]
    exact sha256_compress_lt _ _
  have hWlen : W.length = 8 := by
    rw [hW, sha256_32_state, sha256_transform]
    exact sha256_compress_length _ _
  obtain ⟨a, b, c, d, e, f, g, i, hws⟩ := exists_eight_words hWlen
  have ha : a < 2 ^ 32 := hWlt a (by rw [hws]; simp)
  rw [hflag, hdig, hws]
  have hregs : esp32DigestRegs [a, b, c, d, e, f, g, i]
      = List.map bswap32 ([a, b, c, d, e, f, g, i].reverse) := by
    norm_num [esp32DigestRegs, List.range_succ, List.getD]
  rw [hregs]
  rw [ll_read_digest_if_esp32]
  have hgd : (List.map bswap32 ([a, b, c, d, e, f, g, i].reverse)).getD 7 0 = bswap32 a := by
    norm_num [List.getD]
  have htk : (List.map bswap32 ([a, b, c, d, e, f, g, i].reverse)).take 8
      = List.map bswap32 ([a, b, c, d, e, f, g, i].reverse) := by
    norm_num
  have hrevlt : ∀ w ∈ [a, b, c, d, e, f, g, i].reverse, w < 2 ^ 32 := by
    intro w hw
    exact hWlt w (by rw [hws]; simpa using List.mem_reverse.mp hw)
  have hout : bytesOfWordsLE ((List.map bswap32 ([a, b, c, d, e, f, g, i].reverse)).map bswap32)
      = (bytesOfWordsBE [a, b, c, d, e, f, g, i]).reverse := by
    rw [map_bswap32_map_bswap32 hrevlt]
    exact bytesOfWordsLE_reverse _
  rw [hgd, htk, hout]
  have hb0 : (bytesOfWordsBE [a, b, c, d, e, f, g, i]).getD 0 1 = a / 2 ^ 24 % 256 := by
    norm_num [bytesOfWordsBE, beBytes, List.getD]
  have hb1 : (bytesOfWordsBE [a, b, c, d, e, f, g, i]).getD 1 1 = a / 2 ^ 16 % 256 := by
    norm_num [bytesOfWordsBE, beBytes, List.getD]
  have hBB : ((bswap32 a % 2 ^ 16 == 0) : Bool)
      = (((bytesOfWordsBE [a, b, c, d, e, f, g, i]).getD 0 1 == 0)
          && ((bytesOfWordsBE [a, b, c, d, e, f, g, i]).getD 1 1 == 0)) := by
    rw [hb0, hb1, bswap32_mod16 ha, Bool.eq_iff_iff]
    simp only [beq_iff_eq, Bool.and_eq_true]
    omega
  rw [hBB]
  by_cases h0 : (bytesOfWordsBE [a, b, c, d, e, f, g, i])[0]?.getD 1 = 0 <;>
    by_cases h1 : (bytesOfWordsBE [a, b, c, d, e, f, g, i])[1]?.getD 1 = 0 <;>
      cases dbg <;> simp [h0, h1]

/-- C4 counterexample: on the genesis block header the software backend's
early 16-bit check rejects the candidate (flag false), yet
`sha256_soft_double` still materializes the full 32-byte hash into its
output buffer (the complete digest of hash 2, 32 bytes long), refuting the
claim that a rejected candidate's hash is never materialized. -/
theorem c4_counterexample :
    (sha256_soft_double genesisHeader).1 = false
  ∧ (sha256_soft_double genesisHeader).2
      = bytesOfWordsBE (sha256_32_state (sha256_80 genesisHeader))
  ∧ (sha256_soft_double genesisHeader).2.length = 32 := by
  refine ⟨by rfl, rfl, ?_⟩
  rw [show (sha256_soft_double genesisHeader).2
      = bytesOfWordsBE (sha256_32_state (sha256_80 genesisHeader)) from rfl,
    bytesOfWordsBE_length, sha256_32_state, sha256_transform, sha256_compress_length]

theorem wait_idle_go_false {busy : ℕ → Bool} (h : ∀ t, busy t = true) :
    ∀ fuel t, wait_idle_go busy fuel t = false := by
  intro fuel
  induction fuel with
  | zero => intro t; rfl
  | succ n ih => intro t; rw [wait_idle_go]; simp [h t, ih (t + 1)]

theorem decodeHexChar_sanitizeHex (c : Char) :
    decodeHexChar (sanitizeHex c) = decodeHexChar c := by
  by_cases h : isHexDigit c = true
  · simp [sanitizeHex, h]
  · have h' : ¬((('0' : Char) ≤ c ∧ c ≤ '9') ∨ (('a' : Char) ≤ c ∧ c ≤ 'f')
        ∨ (('A' : Char) ≤ c ∧ c ≤ 'F')) := by
      simpa [isHexDigit] using h
    rw [not_or, not_or] at h'
    rw [sanitizeHex, if_neg h]
    show decodeHexChar '0' = decodeHexChar c
    rw [show decodeHexChar '0' = 0 from by decide]
    rw [decodeHexChar, if_neg h'.1, if_neg h'.2.1, if_neg h'.2.2]

theorem hexToBytes_map_sanitize :
    ∀ l : List Char, hexToBytes (l.map sanitizeHex) = hexToBytes l
  | [] => rfl
  | [c] => by simp [hexToBytes, decodeHexChar_sanitizeHex]
  | c1 :: c2 :: rest => by
      simp [hexToBytes, decodeHexChar_sanitizeHex, hexToBytes_map_sanitize rest]

/-- C2 (amended): both after every new job and after every accepted
pool-difficulty change, `poolTarget` is the fixed `MAX_DIFFICULTY`
(0x1d00ffff) maximum target scaled by the pool difficulty — the 256-bit
value divided by the difficulty is NOT the job-derived `blockTarget` but a
constant independent of the job's `bits` field. -/
theorem c2_pool_target_from_fixed_max (s : MinerState) (job : StratumJob)
    (r1 r2 : ℕ) (q : ℚ) (hq : 0 < q) :
    (miner_start_job s job r1 r2).poolTarget
      = adjust_target_for_difficulty (bits_to_target MAX_DIFFICULTY) s.poolDifficulty
  ∧ (miner_set_difficulty s (.fin q)).poolTarget
      = adjust_target_for_difficulty (bits_to_target MAX_DIFFICULTY) q := by
  exact ⟨rfl, by simp [miner_set_difficulty, hq, setPoolTarget]⟩

/-- C2 witness: the amended statement at a concrete state, job and
difficulty. -/
theorem c2_witness :
    (0 : ℚ) < 2
  ∧ ((miner_start_job initialState testJob 0 0).poolTarget
      = adjust_target_for_difficulty (bits_to_target MAX_DIFFICULTY)
          initialState.poolDifficulty
    ∧ (miner_set_difficulty initialState (.fin 2)).poolTarget
      = adjust_target_for_difficulty (bits_to_target MAX_DIFFICULTY) 2) :=
  ⟨by norm_num, c2_pool_target_from_fixed_max initialState testJob 0 0 2 (by norm_num)⟩

/-- C2 counterexample: starting a job whose `nbits` is `"1c010000"` from the
initial state (pool difficulty 1), the resulting `poolTarget` is not the
job's `blockTarget` scaled by the pool difficulty: the claim's value and the
code's value are different byte arrays. -/
theorem c2_counterexample :
    (miner_start_job initialState testJob 0 0).blockTarget
      = bits_to_target (strtoulHex testJob.nbits)
  ∧ strtoulHex testJob.nbits ≠ MAX_DIFFICULTY
  ∧ (miner_start_job initialState testJob 0 0).poolTarget
      ≠ adjust_target_for_difficulty (miner_start_job initialState testJob 0 0).blockTarget
          (miner_start_job initialState testJob 0 0).poolDifficulty := by
  refine ⟨rfl, by decide, by with_unfolding_all decide⟩

/-- C3 (amended): the block-target comparison of `hashCheck` is nested
inside the pool-target branch, not independent of it: when the pool check
fails nothing is submitted and the `blocks` counter is unchanged — even if
the hash beats `blockTarget` — while when both checks pass the `blocks`
counter increments and the submission carries the block flag. -/
theorem c3_block_check_nested (jobId : List Char) (hash : List ℕ) (ts n : ℕ)
    (pt bt : List ℕ) (sz e2 : ℕ) (stats : MiningStats) :
    (check_target hash pt = false →
       (hashCheck jobId hash ts n pt bt sz e2 stats).2 = none
     ∧ (hashCheck jobId hash ts n pt bt sz e2 stats).1.blocks = stats.blocks)
  ∧ (check_target hash pt = true → check_target hash bt = true →
       (hashCheck jobId hash ts n pt bt sz e2 stats).1.blocks = stats.blocks + 1
     ∧ ∃ sub, (hashCheck jobId hash ts n pt bt sz e2 stats).2 = some sub
         ∧ SUBMIT_FLAG_BLOCK ≤ sub.flags) := by
  constructor
  · intro hp
    rw [hashCheck, if_neg (by simp [hp])]
    exact ⟨rfl, rfl⟩
  · intro hp hb
    by_cases h7 : leWord (hash[28]?.getD 0) (hash[29]?.getD 0) (hash[30]?.getD 0)
        (hash[31]?.getD 0) = 0 <;>
      simp [hashCheck, hp, hb, h7, SUBMIT_FLAG_BLOCK, SUBMIT_FLAG_32BIT]

/-- C3 witness: a hash failing the pool target produces no submission and
leaves the block counter unchanged. -/
theorem c3_witness :
    (hashCheck ['j'] cexHash 0 0 cexPoolTarget cexBlockTarget 4 1 zeroStats).2 = none
  ∧ (hashCheck ['j'] cexHash 0 0 cexPoolTarget cexBlockTarget 4 1 zeroStats).1.blocks
      = zeroStats.blocks :=
  (c3_block_check_nested ['j'] cexHash 0 0 cexPoolTarget cexBlockTarget 4 1 zeroStats).1
    (by decide)

/-- C3 counterexample: a hash that beats the block target but misses the
pool target is neither counted as a block nor submitted, refuting the claim
that any hash at or below `blockTarget` is flagged and counted regardless of
the pool check. -/
theorem c3_counterexample :
    check_target cexHash cexBlockTarget = true
  ∧ check_target cexHash cexPoolTarget = false
  ∧ (hashCheck ['k'] cexHash 0 0 cexPoolTarget cexBlockTarget 4 1 zeroStats).1.blocks = 0
  ∧ (hashCheck ['k'] cexHash 0 0 cexPoolTarget cexBlockTarget 4 1 zeroStats).2 = none := by
  refine ⟨by decide, by decide, rfl, rfl⟩

/-- C5 (amended): the S3-family busy poll `wait_idle` is bounded by a 20000
poll timeout and a verify cycle whose wait times out returns the failure
flag with no digest bytes; the S2/S3/C3 low-level `sha256_ll_wait_idle`,
however, is an unbounded `while (busy) {}` loop that never exits while the
busy register stays set, refuting the claim that every busy poll is bounded
by a timeout. -/
theorem c5_busy_wait_timeout (busy1 busy2 : ℕ → Bool) (midstate tail : List ℕ)
    (nonce : ℕ) (h : ∀ t, busy1 t = true) :
    wait_idle busy1 = false
  ∧ sha256_s3_verify busy1 busy2 midstate tail nonce = (false, none)
  ∧ ∀ n, llWaitIdleExits busy1 n = false := by
  have hw : wait_idle busy1 = false := wait_idle_go_false h 20000 0
  refine ⟨hw, ?_, ?_⟩
  · simp [sha256_s3_verify, hw]
  · intro n
    simp [llWaitIdleExits, h]

/-- C5 witness: the amended statement on the always-busy register stream. -/
theorem c5_witness :
    wait_idle (fun _ => true) = false
  ∧ sha256_s3_verify (fun _ => true) (fun _ => false) [] [] 0 = (false, none)
  ∧ ∀ n, llWaitIdleExits (fun _ => true) n = false :=
  c5_busy_wait_timeout (fun _ => true) (fun _ => false) [] [] 0 (fun _ => rfl)

/-- C5 counterexample: with the busy register permanently set, the low-level
`while (busy) {}` poll of `sha256_ll_wait_idle` has not exited after any
number of polls — in particular not after the 20000-poll budget at which the
S3 `wait_idle` gives up — so that poll is not bounded by any timeout. -/
theorem c5_counterexample :
    (∀ n, llWaitIdleExits (fun _ => true) n = false)
  ∧ wait_idle (fun _ => true) = false := by
  refine ⟨fun n => ?_, wait_idle_go_false (fun _ => rfl) 20000 0⟩
  simp [llWaitIdleExits]

/-- C7: `miner_set_difficulty` rejects NaN, the infinities and every finite
difficulty ≤ 0 leaving the whole state unchanged, and accepts every finite
difficulty > 0, storing it and recomputing the pool target. -/
theorem c7_set_difficulty_guard (s : MinerState) (q : ℚ) :
    miner_set_difficulty s .nan = s
  ∧ miner_set_difficulty s .inf = s
  ∧ miner_set_difficulty s .ninf = s
  ∧ (q ≤ 0 → miner_set_difficulty s (.fin q) = s)
  ∧ (0 < q → (miner_set_difficulty s (.fin q)).poolDifficulty = q
      ∧ (miner_set_difficulty s (.fin q)).poolTarget = setPoolTarget q) := by
  refine ⟨rfl, rfl, rfl, ?_, ?_⟩
  · intro hq
    simp [miner_set_difficulty, not_lt.mpr hq]
  · intro hq
    simp [miner_set_difficulty, hq]

/-- C7 witness: the guard at concrete difficulties. -/
theorem c7_witness :
    miner_set_difficulty initialState .nan = initialState
  ∧ miner_set_difficulty initialState (.fin (-1)) = initialState
  ∧ (miner_set_difficulty initialState (.fin 2)).poolDifficulty = 2 :=
  ⟨(c7_set_difficulty_guard initialState 2).1,
   (c7_set_difficulty_guard initialState (-1)).2.2.2.1 (by norm_num),
   ((c7_set_difficulty_guard initialState 2).2.2.2.2 (by norm_num)).1⟩

/-- C8: `miner_start_job` seeds the second search loop exactly
`0x80000000` nonces after the first (mod 2^32), both from one random draw,
and within attempt windows of size 2^31 the two loops never try the same
nonce. -/
theorem c8_disjoint_nonce_ranges (s : MinerState) (job : StratumJob) (r1 r2 i j : ℕ)
    (hi : i < 2 ^ 31) (hj : j < 2 ^ 31) :
    (miner_start_job s job r1 r2).startNonce1
      = ((miner_start_job s job r1 r2).startNonce0 + 0x80000000) % 2 ^ 32
  ∧ nonceAt (miner_start_job s job r1 r2).startNonce0 i
      ≠ nonceAt (miner_start_job s job r1 r2).startNonce1 j := by
  have h0 : (miner_start_job s job r1 r2).startNonce0 = r2 % 2 ^ 32 := rfl
  have h1 : (miner_start_job s job r1 r2).startNonce1
      = (r2 % 2 ^ 32 + 0x80000000) % 2 ^ 32 := rfl
  refine ⟨by rw [h0, h1], ?_⟩
  rw [nonceAt, nonceAt, h0, h1]
  omega

/-- C8 witness: the seeding relation and disjointness at a concrete job and
attempt pair. -/
theorem c8_witness :
    (miner_start_job initialState testJob 0 0).startNonce1
      = ((miner_start_job initialState testJob 0 0).startNonce0 + 0x80000000) % 2 ^ 32
  ∧ nonceAt (miner_start_job initialState testJob 0 0).startNonce0 0
      ≠ nonceAt (miner_start_job initialState testJob 0 0).startNonce1 0 :=
  c8_disjoint_nonce_ranges initialState testJob 0 0 0 0 (by norm_num) (by norm_num)

/-- C9 (amended): `miner_set_extranonce` stores the extraNonce1 string and
any extraNonce2 width from 1 to 8 as given, and subsequent jobs serialize
extraNonce2 at exactly that width; the extraNonce1 bytes of the assembled
coinbase, however, are taken from the job structure's own extraNonce1
field — the stored extraNonce1 is not read by the coinbase assembly. -/
theorem c9_extranonce_stored_but_job_used (s : MinerState) (en1 : List Char) (sz : ℕ)
    (h1 : 1 ≤ sz) (h8 : sz ≤ 8) (job : StratumJob) (r1 r2 : ℕ) :
    (miner_set_extranonce s en1 sz).extraNonce2Size = sz
  ∧ (miner_set_extranonce s en1 sz).extraNonce1 = en1.take 31
  ∧ (miner_start_job (miner_set_extranonce s en1 sz) job r1 r2).pendingBlock.merkle_root
      = calculateMerkleRoot
          (sha256 (sha256 (hexToBytes job.coinBase1 ++ hexToBytes job.extraNonce1
            ++ hexToBytes (encodeExtraNonce sz (r1 % 2 ^ 32)) ++ hexToBytes job.coinBase2)))
          job.merkleBranches := by
  have hsz : (if sz > 8 then 8 else sz) = sz := if_neg (Nat.not_lt.mpr h8)
  refine ⟨by simp [miner_set_extranonce, hsz], by simp [miner_set_extranonce], ?_⟩
  simp [miner_start_job, miner_set_extranonce, createCoinbaseHash, createCoinbaseBytes, hsz]

/-- C9 witness: the amended statement at a concrete state, job and width. -/
theorem c9_witness :
    (miner_set_extranonce initialState ['a'] 8).extraNonce2Size = 8
  ∧ (miner_set_extranonce initialState ['a'] 8).extraNonce1 = (['a'] : List Char).take 31
  ∧ (miner_start_job (miner_set_extranonce initialState ['a'] 8) cexJob9 0 0).pendingBlock.merkle_root
      = calculateMerkleRoot
          (sha256 (sha256 (hexToBytes cexJob9.coinBase1 ++ hexToBytes cexJob9.extraNonce1
            ++ hexToBytes (encodeExtraNonce 8 (0 % 2 ^ 32)) ++ hexToBytes cexJob9.coinBase2)))
          cexJob9.merkleBranches :=
  c9_extranonce_stored_but_job_used initialState ['a'] 8 (by norm_num) (by norm_num) cexJob9 0 0

/-- C9 counterexample: after storing extraNonce1 `"ab"`, the coinbase built
for a job whose own extraNonce1 field is `"cd"` contains the byte `0xcd`
from the job and nowhere the stored byte `0xab`, refuting the claim that
the stored extraNonce1 value is the one assembled into the coinbase. -/
theorem c9_counterexample :
    (miner_set_extranonce initialState ['a', 'b'] 4).extraNonce1 = ['a', 'b']
  ∧ createCoinbaseBytes cexJob9 (miner_set_extranonce initialState ['a', 'b'] 4).extraNonce2Size
        (miner_set_extranonce initialState ['a', 'b'] 4).extraNonce2
      = [0x00, 0xcd, 0x00, 0x00, 0x00, 0x01, 0xff]
  ∧ (0xab : ℕ) ∉ createCoinbaseBytes cexJob9 4 1 := by
  refine ⟨by decide, by decide, by decide⟩

/-- C10: hex decoding of job fields is total and silent: every character
outside the three hex-digit ranges decodes to nibble 0, so `hexToBytes`
maps any malformed string to exactly the bytes of the same string with each
invalid character replaced by the digit `'0'`. -/
theorem c10_hex_decode_total (c : Char) (l : List Char) (h : isHexDigit c = false) :
    decodeHexChar c = 0 ∧ hexToBytes l = hexToBytes (l.map sanitizeHex) := by
  constructor
  · have h' : ¬((('0' : Char) ≤ c ∧ c ≤ '9') ∨ (('a' : Char) ≤ c ∧ c ≤ 'f')
        ∨ (('A' : Char) ≤ c ∧ c ≤ 'F')) := by
      simpa [isHexDigit] using h
    rw [not_or, not_or] at h'
    rw [decodeHexChar, if_neg h'.1, if_neg h'.2.1, if_neg h'.2.2]
  · exact (hexToBytes_map_sanitize l).symm

/-- C10 witness: the decode-to-zero and sanitization identities on a
malformed string. -/
theorem c10_witness :
    isHexDigit 'z' = false
  ∧ (decodeHexChar 'z' = 0
    ∧ hexToBytes ['z', 'g'] = hexToBytes ((['z', 'g'] : List Char).map sanitizeHex)) :=
  ⟨by decide, c10_hex_decode_total 'z' ['z', 'g'] (by decide)⟩

/-- C6 (amended): scaling a 32-byte target by difficulty 1.0 is the
identity at least whenever each of the four 64-bit limbs of the target is
exactly representable in a binary64 `double` (at most 53 significant
bits).  Representability is sufficient, not necessary (a limb of
`2 ^ 64 - 1` is preserved by the max-uint64 clamp), but the identity does
not extend to all 2^256 targets: the float round-trip changes some
non-representable limbs (see the counterexample). -/
theorem c6_adjust_identity (bt : List ℕ) (hlen : bt.length = 32)
    (hbytes : ∀ b ∈ bt, b < 256)
    (hfix0 : roundB64 (leU64 bt 0 : ℚ) = (leU64 bt 0 : ℚ))
    (hfix1 : roundB64 (leU64 bt 1 : ℚ) = (leU64 bt 1 : ℚ))
    (hfix2 : roundB64 (leU64 bt 2 : ℚ) = (leU64 bt 2 : ℚ))
    (hfix3 : roundB64 (leU64 bt 3 : ℚ) = (leU64 bt 3 : ℚ)) :
    adjust_target_for_difficulty bt 1 = bt := by
  obtain ⟨b0, b1, b2, b3, b4, b5, b6, b7, b8, b9, b10, b11, b12, b13, b14, b15, b16, b17,
    b18, b19, b20, b21, b22, b23, b24, b25, b26, b27, b28, b29, b30, b31, rfl⟩ :=
    exists_thirtytwo_bytes hlen
  have hb0 : b0 < 256 := hbytes b0 (by simp)
  have hb1 : b1 < 256 := hbytes b1 (by simp)
  have hb2 : b2 < 256 := hbytes b2 (by simp)
  have hb3 : b3 < 256 := hbytes b3 (by simp)
  have hb4 : b4 < 256 := hbytes b4 (by simp)
  have hb5 : b5 < 256 := hbytes b5 (by simp)
  have hb6 : b6 < 256 := hbytes b6 (by simp)
  have hb7 : b7 < 256 := hbytes b7 (by simp)
  have hb8 : b8 < 256 := hbytes b8 (by simp)
  have hb9 : b9 < 256 := hbytes b9 (by simp)
  have hb10 : b10 < 256 := hbytes b10 (by simp)
  have hb11 : b11 < 256 := hbytes b11 (by simp)
  have hb12 : b12 < 256 := hbytes b12 (by simp)
  have hb13 : b13 < 256 := hbytes b13 (by simp)
  have hb14 : b14 < 256 := hbytes b14 (by simp)
  have hb15 : b15 < 256 := hbytes b15 (by simp)
  have hb16 : b16 < 256 := hbytes b16 (by simp)
  have hb17 : b17 < 256 := hbytes b17 (by simp)
  have hb18 : b18 < 256 := hbytes b18 (by simp)
  have hb19 : b19 < 256 := hbytes b19 (by simp)
  have hb20 : b20 < 256 := hbytes b20 (by simp)
  have hb21 : b21 < 256 := hbytes b21 (by simp)
  have hb22 : b22 < 256 := hbytes b22 (by simp)
  have hb23 : b23 < 256 := hbytes b23 (by simp)
  have hb24 : b24 < 256 := hbytes b24 (by simp)
  have hb25 : b25 < 256 := hbytes b25 (by simp)
  have hb26 : b26 < 256 := hbytes b26 (by simp)
  have hb27 : b27 < 256 := hbytes b27 (by simp)
  have hb28 : b28 < 256 := hbytes b28 (by simp)
  have hb29 : b29 < 256 := hbytes b29 (by simp)
  have hb30 : b30 < 256 := hbytes b30 (by simp)
  have hb31 : b31 < 256 := hbytes b31 (by simp)
  have e0 : leU64 [b0, b1, b2, b3, b4, b5, b6, b7, b8, b9, b10, b11, b12, b13, b14, b15,
      b16, b17, b18, b19, b20, b21, b22, b23, b24, b25, b26, b27, b28, b29, b30, b31] 0
      = b0 + b1 * 2 ^ 8 + b2 * 2 ^ 16 + b3 * 2 ^ 24 + b4 * 2 ^ 32 + b5 * 2 ^ 40
        + b6 * 2 ^ 48 + b7 * 2 ^ 56 := rfl
  have e1 : leU64 [b0, b1, b2, b3, b4, b5, b6, b7, b8, b9, b10, b11, b12, b13, b14, b15,
      b16, b17, b18, b19, b20, b21, b22, b23, b24, b25, b26, b27, b28, b29, b30, b31] 1
      = b8 + b9 * 2 ^ 8 + b10 * 2 ^ 16 + b11 * 2 ^ 24 + b12 * 2 ^ 32 + b13 * 2 ^ 40
        + b14 * 2 ^ 48 + b15 * 2 ^ 56 := rfl
  have e2 : leU64 [b0, b1, b2, b3, b4, b5, b6, b7, b8, b9, b10, b11, b12, b13, b14, b15,
      b16, b17, b18, b19, b20, b21, b22, b23, b24, b25, b26, b27, b28, b29, b30, b31] 2
      = b16 + b17 * 2 ^ 8 + b18 * 2 ^ 16 + b19 * 2 ^ 24 + b20 * 2 ^ 32 + b21 * 2 ^ 40
        + b22 * 2 ^ 48 + b23 * 2 ^ 56 := rfl
  have e3 : leU64 [b0, b1, b2, b3, b4, b5, b6, b7, b8, b9, b10, b11, b12, b13, b14, b15,
      b16, b17, b18, b19, b20, b21, b22, b23, b24, b25, b26, b27, b28, b29, b30, b31] 3
      = b24 + b25 * 2 ^ 8 + b26 * 2 ^ 16 + b27 * 2 ^ 24 + b28 * 2 ^ 32 + b29 * 2 ^ 40
        + b30 * 2 ^ 48 + b31 * 2 ^ 56 := rfl
  have hL0 : leU64 [b0, b1, b2, b3, b4, b5, b6, b7, b8, b9, b10, b11, b12, b13, b14, b15,
      b16, b17, b18, b19, b20, b21, b22, b23, b24, b25, b26, b27, b28, b29, b30, b31] 0
      < 2 ^ 64 := by rw [e0]; omega
  have hL1 : leU64 [b0, b1, b2, b3, b4, b5, b6, b7, b8, b9, b10, b11, b12, b13, b14, b15,
      b16, b17, b18, b19, b20, b21, b22, b23, b24, b25, b26, b27, b28, b29, b30, b31] 1
      < 2 ^ 64 := by rw [e1]; omega
  have hL2 : leU64 [b0, b1, b2, b3, b4, b5, b6, b7, b8, b9, b10, b11, b12, b13, b14, b15,
      b16, b17, b18, b19, b20, b21, b22, b23, b24, b25, b26, b27, b28, b29, b30, b31] 2
      < 2 ^ 64 := by rw [e2]; omega
  have hL3 : leU64 [b0, b1, b2, b3, b4, b5, b6, b7, b8, b9, b10, b11, b12, b13, b14, b15,
      b16, b17, b18, b19, b20, b21, b22, b23, b24, b25, b26, b27, b28, b29, b30, b31] 3
      < 2 ^ 64 := by rw [e3]; omega
  rw [adjust_target_for_difficulty, divide_one hL0 hL1 hL2 hL3 hfix0 hfix1 hfix2 hfix3]
  rw [e0, e1, e2, e3]
  simp only [List.flatMap_cons, List.flatMap_nil, List.append_nil]
  rw [leBytes8_sum hb0 hb1 hb2 hb3 hb4 hb5 hb6 hb7,
    leBytes8_sum hb8 hb9 hb10 hb11 hb12 hb13 hb14 hb15,
    leBytes8_sum hb16 hb17 hb18 hb19 hb20 hb21 hb22 hb23,
    leBytes8_sum hb24 hb25 hb26 hb27 hb28 hb29 hb30 hb31]
  simp

/-- C6 witness: the identity at difficulty 1 on the `MAX_DIFFICULTY`
maximum target, whose limbs are all binary64-representable. -/
theorem c6_witness :
    (bits_to_target MAX_DIFFICULTY).length = 32
  ∧ roundB64 (leU64 (bits_to_target MAX_DIFFICULTY) 3 : ℚ)
      = (leU64 (bits_to_target MAX_DIFFICULTY) 3 : ℚ)
  ∧ adjust_target_for_difficulty (bits_to_target MAX_DIFFICULTY) 1
      = bits_to_target MAX_DIFFICULTY :=
  ⟨by decide, by with_unfolding_all rfl,
   c6_adjust_identity (bits_to_target MAX_DIFFICULTY) (by decide) (by decide)
     (by with_unfolding_all rfl) (by with_unfolding_all rfl)
     (by with_unfolding_all rfl) (by with_unfolding_all rfl)⟩

/-- C6 counterexample: a target whose most significant limb is `2 ^ 53 + 1`
(not representable in 53 bits) is changed by scaling with difficulty 1.0 —
byte 24 drops from 1 to 0 — so the identity fails. -/
theorem c6_counterexample :
    cexTarget.length = 32
  ∧ cexTarget.getD 24 0 = 1
  ∧ (adjust_target_for_difficulty cexTarget 1).getD 24 0 = 0
  ∧ adjust_target_for_difficulty cexTarget 1 ≠ cexTarget := by
  have h24 : (adjust_target_for_difficulty cexTarget 1).getD 24 0 = 0 := by
    with_unfolding_all rfl
  have h24' : cexTarget.getD 24 0 = 1 := by decide
  refine ⟨by decide, h24', h24, fun h => ?_⟩
  rw [h, h24'] at h24
  exact one_ne_zero h24

end SparkMiner
